import Mathlib

/-!
Verification development for the falling-block game simulation engine
(`game-engine.js` together with the pure physics module `physics-pure.js`).

The physics functions are translated as pure functions over a board of
20 rows by 10 columns where a cell is `none` (empty) or `some color`.
Shape matrices keep the sources 0/1 entries (`Nat`), a cell being occupied
when it is nonzero, exactly as JavaScript truthiness treats them.
Coordinates are integers since pieces spawn above the visible board
(negative rows).
-/

abbrev Cell := Option String
abbrev Board := List (List Cell)
abbrev Shape := List (List Nat)

/-- The eleven piece kinds of `PIECE_DEFINITIONS`. -/
inductive PieceType
  | I | J | L | O | S | T | Z | FLOAT | PLUS | U | DOT
deriving DecidableEq, Repr

/-- A piece value as handled by the engine.  The purely visual fields
`variant` and `uniqueId` of the source (drawn from `Math.random()` and
never read by any gameplay decision) are not modelled. -/
structure Piece where
  type : PieceType
  shape : Shape
  color : String
  gridX : Int
  gridY : Int
  rotation : Int
  upMovesUsed : Nat
  generation : Nat
deriving DecidableEq, Repr

/-- Per-cell body of the collision loop of `canPieceFitAt`:
wall test first, then the two-rows-above-board bound, the floor, and
finally (for visible rows only, and guarded by the in-bounds checks of the
source which `List.getD` reproduces) the occupied-cell test. -/
def fitCell (board : Board) (shape : Shape) (x y : Int) (dy dx : Nat) : Bool :=
  if (shape.getD dy []).getD dx 0 = 0 then true
  else if x + (dx : Int) < 0 ∨ 10 ≤ x + (dx : Int) then false
  else if y + (dy : Int) < -2 then false
  else if 20 ≤ y + (dy : Int) then false
  else if 0 ≤ y + (dy : Int) then
    ((board.getD (y + (dy : Int)).toNat []).getD (x + (dx : Int)).toNat none).isNone
  else true

/-- `canPieceFitAt(board, piece, x, y)` of `physics-pure.js`: every occupied
cell of the shape placed at `(x, y)` passes the per-cell test. -/
def canPieceFitAt (board : Board) (shape : Shape) (x y : Int) : Bool :=
  (List.range shape.length).all fun dy =>
    (List.range (shape.getD dy []).length).all fun dx =>
      fitCell board shape x y dy dx

/-- The fit test as the specification states it: every occupied cell lands
in columns `[0,10)`, in rows `[-2,20)`, and does not overlap a non-empty
board cell when its row is visible. -/
def CanFitSpec (board : Board) (shape : Shape) (x y : Int) : Prop :=
  ∀ dy dx, dy < shape.length → dx < (shape.getD dy []).length →
    (shape.getD dy []).getD dx 0 ≠ 0 →
    0 ≤ x + (dx : Int) ∧ x + (dx : Int) < 10 ∧
    (-2 : Int) ≤ y + (dy : Int) ∧ y + (dy : Int) < 20 ∧
    (0 ≤ y + (dy : Int) →
      (board.getD (y + (dy : Int)).toNat []).getD (x + (dx : Int)).toNat none = none)

theorem fitCell_eq_true_iff (board : Board) (shape : Shape) (x y : Int) (dy dx : Nat) :
    fitCell board shape x y dy dx = true ↔
    ((shape.getD dy []).getD dx 0 ≠ 0 →
      0 ≤ x + (dx : Int) ∧ x + (dx : Int) < 10 ∧
      (-2 : Int) ≤ y + (dy : Int) ∧ y + (dy : Int) < 20 ∧
      (0 ≤ y + (dy : Int) →
        (board.getD (y + (dy : Int)).toNat []).getD (x + (dx : Int)).toNat none = none)) := by
  unfold fitCell
  split
  · simp_all
  · split
    · simp_all
      omega
    · split
      · simp_all
      · split
        · simp_all
        · split
          · rename_i hocc hwall habove hfloor hvis
            simp only [Option.isNone_iff_eq_none]
            constructor
            · intro hnone _
              refine ⟨by omega, by omega, by omega, by omega, fun _ => hnone⟩
            · intro h
              exact (h hocc).2.2.2.2 hvis
          · rename_i hocc hwall habove hfloor hvis
            simp only [true_iff]
            intro _
            exact ⟨by omega, by omega, by omega, by omega, fun h0 => absurd h0 hvis⟩

/-- C2 helper: the loop equals the universally quantified specification. -/
theorem canPieceFitAt_eq_true_iff (board : Board) (shape : Shape) (x y : Int) :
    canPieceFitAt board shape x y = true ↔ CanFitSpec board shape x y := by
  unfold canPieceFitAt CanFitSpec
  simp only [List.all_eq_true, List.mem_range]
  constructor
  · intro h dy dx hdy hdx hocc
    exact (fitCell_eq_true_iff board shape x y dy dx).1 (h dy hdy dx hdx) hocc
  · intro h dy hdy dx hdx
    exact (fitCell_eq_true_iff board shape x y dy dx).2 fun hocc => h dy dx hdy hdx hocc

/-- Fuel-indexed translation of the `while` loop of `calculateShadow`:
keep probing one row lower while still above the floor and the probe fits. -/
def shadowAux (board : Board) (shape : Shape) (x : Int) : Nat → Int → Int
  | 0, yc => yc
  | fuel + 1, yc =>
    if yc < 20 ∧ canPieceFitAt board shape x (yc + 1) then
      shadowAux board shape x fuel (yc + 1)
    else yc

/-- `calculateShadow(board, piece)`: the row the piece would land on if
dropped.  The loop runs at most `20 - gridY` times since it stops at
`shadowY = 20`; the fuel bounds it safely. -/
def calculateShadow (board : Board) (p : Piece) : Int :=
  shadowAux board p.shape p.gridX (22 - p.gridY).toNat p.gridY

theorem shadowAux_ge (board : Board) (shape : Shape) (x : Int) :
    ∀ fuel yc, yc ≤ shadowAux board shape x fuel yc := by
  intro fuel
  induction fuel with
  | zero => intro yc; simp [shadowAux]
  | succ n ih =>
    intro yc
    unfold shadowAux
    split
    · exact le_trans (by omega) (ih (yc + 1))
    · exact le_refl yc

/-- `calculateShadow` never returns a row above the piece's current row. -/
theorem calculateShadow_ge (board : Board) (p : Piece) :
    p.gridY ≤ calculateShadow board p :=
  shadowAux_ge board p.shape p.gridX _ p.gridY

/-- `rotatePiece(piece, direction)`: a new `n x n` matrix with
`rotated[i][j] = shape[n-1-j][i]` clockwise (`direction = 1`) and
`rotated[i][j] = shape[j][n-1-i]` otherwise; the rotation index follows the
JavaScript `%` (truncating remainder, `Int.tmod`). -/
def rotatePiece (p : Piece) (direction : Int) : Piece :=
  let n := p.shape.length
  let rotated := (List.range n).map fun i => (List.range n).map fun j =>
    if direction = 1 then (p.shape.getD (n - 1 - j) []).getD i 0
    else (p.shape.getD j []).getD (n - 1 - i) 0
  { p with shape := rotated, rotation := Int.tmod (p.rotation + direction + 4) 4 }

/-- The `kicks.I` table of `getWallKicks`, keyed by the
`fromRotation -> toRotation` transition; unknown keys give `[]`. -/
def kickTableI (fromR toR : Int) : List (Int × Int) :=
  if fromR = 0 ∧ toR = 1 then [(-2, 0), (1, 0), (-2, -1), (1, 2)]
  else if fromR = 1 ∧ toR = 0 then [(2, 0), (-1, 0), (2, 1), (-1, -2)]
  else if fromR = 1 ∧ toR = 2 then [(-1, 0), (2, 0), (-1, 2), (2, -1)]
  else if fromR = 2 ∧ toR = 1 then [(1, 0), (-2, 0), (1, -2), (-2, 1)]
  else if fromR = 2 ∧ toR = 3 then [(2, 0), (-1, 0), (2, 1), (-1, -2)]
  else if fromR = 3 ∧ toR = 2 then [(-2, 0), (1, 0), (-2, -1), (1, 2)]
  else if fromR = 3 ∧ toR = 0 then [(1, 0), (-2, 0), (1, -2), (-2, 1)]
  else if fromR = 0 ∧ toR = 3 then [(-1, 0), (2, 0), (-1, 2), (2, -1)]
  else []

/-- The `kicks.default` table of `getWallKicks`. -/
def kickTableDefault (fromR toR : Int) : List (Int × Int) :=
  if fromR = 0 ∧ toR = 1 then [(-1, 0), (-1, 1), (0, -2), (-1, -2)]
  else if fromR = 1 ∧ toR = 0 then [(1, 0), (1, -1), (0, 2), (1, 2)]
  else if fromR = 1 ∧ toR = 2 then [(1, 0), (1, -1), (0, 2), (1, 2)]
  else if fromR = 2 ∧ toR = 1 then [(-1, 0), (-1, 1), (0, -2), (-1, -2)]
  else if fromR = 2 ∧ toR = 3 then [(1, 0), (1, 1), (0, -2), (1, -2)]
  else if fromR = 3 ∧ toR = 2 then [(-1, 0), (-1, -1), (0, 2), (-1, 2)]
  else if fromR = 3 ∧ toR = 0 then [(-1, 0), (-1, -1), (0, 2), (-1, 2)]
  else if fromR = 0 ∧ toR = 3 then [(1, 0), (1, 1), (0, -2), (1, -2)]
  else []

/-- `getWallKicks(piece, direction)`: the I-specific table for the "I"
kind, the default table otherwise, for the transition
`rotation -> (rotation + direction + 4) % 4`. -/
def getWallKicks (p : Piece) (direction : Int) : List (Int × Int) :=
  let fromR := p.rotation
  let toR := Int.tmod (p.rotation + direction + 4) 4
  if p.type = PieceType.I then kickTableI fromR toR else kickTableDefault fromR toR

/-- The kick loop of `tryRotation`: first offset whose target fits wins. -/
def tryKicks (board : Board) (rotated : Piece) : List (Int × Int) → Option Piece
  | [] => none
  | (kx, ky) :: rest =>
    if canPieceFitAt board rotated.shape (rotated.gridX + kx) (rotated.gridY + ky) then
      some { rotated with gridX := rotated.gridX + kx, gridY := rotated.gridY + ky }
    else
      tryKicks board rotated rest

/-- `tryRotation(board, piece, direction)`: base rotation first; on failure
the "O" kind never kicks; otherwise the wall-kick offsets are tried in
table order.  `none` models `{ success: false }`. -/
def tryRotation (board : Board) (p : Piece) (direction : Int) : Option Piece :=
  let rotated := rotatePiece p direction
  if canPieceFitAt board rotated.shape rotated.gridX rotated.gridY then
    some rotated
  else if p.type = PieceType.O then none
  else tryKicks board rotated (getWallKicks p direction)

/-- One cell write of `placePiece`, with the defensive in-bounds check of
the source: out-of-grid cells are skipped, never written. -/
def placeCell (color : String) (b2 : Board) (xi yi : Int) : Board :=
  if 0 ≤ yi ∧ yi < (b2.length : Int) ∧ 0 ≤ xi ∧ xi < ((b2.getD yi.toNat []).length : Int) then
    b2.set yi.toNat ((b2.getD yi.toNat []).set xi.toNat (some color))
  else b2

/-- `placePiece(board, piece)`: write the piece's occupied cells. -/
def placePiece (board : Board) (p : Piece) : Board :=
  p.shape.enum.foldl (fun b (cellRow : Nat × List Nat) =>
    cellRow.2.enum.foldl (fun b2 (cellEntry : Nat × Nat) =>
      if cellEntry.2 ≠ 0 then
        placeCell p.color b2 (p.gridX + cellEntry.1) (p.gridY + cellRow.1)
      else b2) b) board

/-- `findClearedLines(board)`: indices of rows whose every cell is
non-empty, in top-to-bottom order. -/
def findClearedLines (board : Board) : List Nat :=
  (board.enum.filter fun rowEntry => rowEntry.2.all fun c => c.isSome).map fun rowEntry => rowEntry.1

/-- `removeClearedLines(board, lines)`: drop the rows whose index is in
`lines`, then put fresh empty rows on top until the board is 20 rows high
again. -/
def removeClearedLines (board : Board) (lines : List Nat) : Board :=
  let newBoard := (board.enum.filter fun rowEntry => !lines.contains rowEntry.1).map
    fun rowEntry => rowEntry.2
  List.replicate (20 - newBoard.length) (List.replicate 10 none) ++ newBoard

/-- `canSpawn(board, piece)`: the fit test at the piece's own coordinates. -/
def canSpawn (board : Board) (p : Piece) : Bool :=
  canPieceFitAt board p.shape p.gridX p.gridY

/-- Shape matrices of `PIECE_DEFINITIONS`. -/
def pieceShape : PieceType → Shape
  | .I => [[0,0,0,0], [1,1,1,1], [0,0,0,0], [0,0,0,0]]
  | .J => [[1,0,0], [1,1,1], [0,0,0]]
  | .L => [[0,0,1], [1,1,1], [0,0,0]]
  | .O => [[1,1], [1,1]]
  | .S => [[0,1,1], [1,1,0], [0,0,0]]
  | .T => [[0,1,0], [1,1,1], [0,0,0]]
  | .Z => [[1,1,0], [0,1,1], [0,0,0]]
  | .FLOAT => [[1]]
  | .PLUS => [[0,1,0], [1,1,1], [0,1,0]]
  | .U => [[1,0,1], [1,0,1], [1,1,1]]
  | .DOT => [[1,1,0], [1,0,1], [0,1,1]]

/-- Colors of `PIECE_DEFINITIONS`. -/
def pieceColor : PieceType → String
  | .I => "#00FFFF"
  | .J => "#0000FF"
  | .L => "#FF7F00"
  | .O => "#FFFF00"
  | .S => "#00FF00"
  | .T => "#8A2BE2"
  | .Z => "#FF0000"
  | .FLOAT => "#FFFFFF"
  | .PLUS => "#FFD700"
  | .U => "#FF69B4"
  | .DOT => "#00CED1"

/-- Spawn coordinates of `PIECE_DEFINITIONS`. -/
def pieceSpawn : PieceType → Int × Int
  | .I => (3, -2)
  | .J => (3, -2)
  | .L => (3, -2)
  | .O => (4, -2)
  | .S => (3, -2)
  | .T => (3, -2)
  | .Z => (3, -2)
  | .FLOAT => (4, -1)
  | .PLUS => (3, -3)
  | .U => (3, -3)
  | .DOT => (3, -3)

/-- `createPiece(type)`: fresh piece at its spawn cell with rotation 0. -/
def createPiece (t : PieceType) : Piece :=
  { type := t
    shape := pieceShape t
    color := pieceColor t
    gridX := (pieceSpawn t).1
    gridY := (pieceSpawn t).2
    rotation := 0
    upMovesUsed := 0
    generation := 0 }

/-- The empty 20 x 10 board every game starts from. -/
def emptyBoard : Board := List.replicate 20 (List.replicate 10 none)

/-- C2: for every board, shape and coordinates, `canPieceFitAt` returns
`true` exactly when every occupied cell of the shape placed at `(x, y)`
lands inside columns `[0,10)` and rows `[-2,20)` and, when its row is
visible (row `>= 0`), does not overlap a non-empty board cell; it returns
`false` in every other case. -/
theorem fit_test_characterization (board : Board) (shape : Shape) (x y : Int) :
    canPieceFitAt board shape x y = true ↔ CanFitSpec board shape x y :=
  canPieceFitAt_eq_true_iff board shape x y

/-- The surviving rows of a line removal, as the specification words it:
walk the rows in order, keeping exactly those whose index is not in the
removed set. -/
def keptRowsSpec : Board → Nat → List Nat → Board
  | [], _, _ => []
  | r :: rs, i, lines =>
    if lines.contains i then keptRowsSpec rs (i + 1) lines
    else r :: keptRowsSpec rs (i + 1) lines

theorem keptRowsSpec_eq_filter (lines : List Nat) :
    ∀ (b : Board) (i : Nat),
      ((b.enumFrom i).filter fun rowEntry => !lines.contains rowEntry.1).map
          (fun rowEntry => rowEntry.2) =
        keptRowsSpec b i lines := by
  intro b
  induction b with
  | nil => intro i; rfl
  | cons r rs ih =>
    intro i
    have ih' := ih (i + 1)
    simp at ih'
    by_cases h : i ∈ lines
    · simp [List.enumFrom, List.filter, keptRowsSpec, h, ih']
    · simp [List.enumFrom, List.filter, keptRowsSpec, h, ih']

theorem keptRowsSpec_length_le (lines : List Nat) :
    ∀ (b : Board) (i : Nat), (keptRowsSpec b i lines).length ≤ b.length := by
  intro b
  induction b with
  | nil => intro i; simp [keptRowsSpec]
  | cons r rs ih =>
    intro i
    unfold keptRowsSpec
    split
    · exact le_trans (ih (i + 1)) (by simp)
    · simpa using ih (i + 1)

theorem keptRowsSpec_mem (lines : List Nat) :
    ∀ (b : Board) (i : Nat) (r : List Cell), r ∈ keptRowsSpec b i lines → r ∈ b := by
  intro b
  induction b with
  | nil => intro i r h; simpa [keptRowsSpec] using h
  | cons hd rs ih =>
    intro i r h
    unfold keptRowsSpec at h
    split at h
    · exact List.mem_cons_of_mem hd (ih (i + 1) r h)
    · rcases List.mem_cons.1 h with h' | h'
      · exact h' ▸ List.mem_cons_self hd rs
      · exact List.mem_cons_of_mem hd (ih (i + 1) r h')

/-- C5: for every 20-row board of 10-cell rows and every removed-index set,
`removeClearedLines` returns exactly the kept rows, in their original order
and content, preceded by enough fresh empty rows to make the board 20 rows
of 10 cells again. -/
theorem removeClearedLines_spec (board : Board) (lines : List Nat)
    (h20 : board.length = 20) (h10 : ∀ r ∈ board, r.length = 10) :
    removeClearedLines board lines =
      List.replicate (20 - (keptRowsSpec board 0 lines).length) (List.replicate 10 none) ++
        keptRowsSpec board 0 lines ∧
    (removeClearedLines board lines).length = 20 ∧
    ∀ r ∈ removeClearedLines board lines, r.length = 10 := by
  have hkept : ((board.enum.filter fun rowEntry => !lines.contains rowEntry.1).map
      (fun rowEntry => rowEntry.2)) = keptRowsSpec board 0 lines := by
    simpa [List.enum] using keptRowsSpec_eq_filter lines board 0
  have hlen : (keptRowsSpec board 0 lines).length ≤ 20 :=
    h20 ▸ keptRowsSpec_length_le lines board 0
  refine ⟨?_, ?_, ?_⟩
  · unfold removeClearedLines
    rw [hkept]
  · unfold removeClearedLines
    rw [hkept]
    simp
    omega
  · intro r hr
    unfold removeClearedLines at hr
    rw [hkept] at hr
    rcases List.mem_append.1 hr with h' | h'
    · simp [List.eq_of_mem_replicate h']
    · exact h10 r (keptRowsSpec_mem lines board 0 r h')

/-- Wall-kick resolution as the specification words it: the candidate
offsets are the base position `(0,0)` followed — except for the "O" kind,
which never attempts kicks — by the kick-table entries, and the first
offset whose target passes the fit test wins; `none` when none succeed. -/
def rotationSpec (board : Board) (p : Piece) (direction : Int) : Option Piece :=
  let rotated := rotatePiece p direction
  let offsets := ((0 : Int), (0 : Int)) ::
    (if p.type = PieceType.O then [] else getWallKicks p direction)
  (offsets.find? fun o =>
      canPieceFitAt board rotated.shape (rotated.gridX + o.1) (rotated.gridY + o.2)).map
    fun o => { rotated with gridX := rotated.gridX + o.1, gridY := rotated.gridY + o.2 }

theorem tryKicks_eq_find (board : Board) (rotated : Piece) :
    ∀ l : List (Int × Int),
      tryKicks board rotated l =
        (l.find? fun o =>
            canPieceFitAt board rotated.shape (rotated.gridX + o.1) (rotated.gridY + o.2)).map
          fun o => { rotated with gridX := rotated.gridX + o.1, gridY := rotated.gridY + o.2 } := by
  intro l
  induction l with
  | nil => rfl
  | cons k rest ih =>
    obtain ⟨kx, ky⟩ := k
    by_cases h : canPieceFitAt board rotated.shape (rotated.gridX + kx) (rotated.gridY + ky) = true
    · simp [tryKicks, List.find?_cons, h]
    · simp only [Bool.not_eq_true] at h
      simp [tryKicks, List.find?_cons, h, ih]

theorem tryRotation_eq_rotationSpec (board : Board) (p : Piece) (direction : Int) :
    tryRotation board p direction = rotationSpec board p direction := by
  unfold tryRotation rotationSpec
  by_cases hbase : canPieceFitAt board (rotatePiece p direction).shape
      (rotatePiece p direction).gridX (rotatePiece p direction).gridY = true
  · have h0 : canPieceFitAt board (rotatePiece p direction).shape
        ((rotatePiece p direction).gridX + 0) ((rotatePiece p direction).gridY + 0) = true := by
      simpa using hbase
    simp [hbase, List.find?_cons, h0]
  · have h0 : canPieceFitAt board (rotatePiece p direction).shape
        ((rotatePiece p direction).gridX + 0) ((rotatePiece p direction).gridY + 0) = false := by
      simpa using hbase
    by_cases hO : p.type = PieceType.O
    · simp [hbase, hO, List.find?_cons, h0]
    · simp [hbase, hO, List.find?_cons, h0, tryKicks_eq_find]

/-- The "I" piece at column 8, row 5, rotation 0 — a position on the empty
board where the base rotation to orientation 1 collides with the right
wall, so the kick table is consulted. -/
def pieceI8 : Piece := { createPiece PieceType.I with gridX := 8, gridY := 5 }

/-- C6: wall-kick resolution tries the base rotated position first and then
the kick-table offsets for the piece kind and rotation transition strictly
in table order, returning the first offset position that passes the fit
test and failing when none do (first conjunct, an equality with the
first-success specification `rotationSpec`); the "O" kind never attempts
kicks and never changes position on rotation (second conjunct); and for the
"I" kind rotating 0 -> 1 on the empty board, at a position where the base
rotation collides, the result position is exactly the first successful
offset of the I-specific table (third conjunct). -/
theorem rotation_kick_resolution :
    (∀ (board : Board) (p : Piece) (direction : Int),
        tryRotation board p direction = rotationSpec board p direction) ∧
    (∀ (board : Board) (p : Piece) (direction : Int) (q : Piece),
        p.type = PieceType.O → tryRotation board p direction = some q →
        q.gridX = p.gridX ∧ q.gridY = p.gridY) ∧
    (canPieceFitAt emptyBoard (rotatePiece pieceI8 1).shape 8 5 = false ∧
      getWallKicks pieceI8 1 = [(-2, 0), (1, 0), (-2, -1), (1, 2)] ∧
      ((getWallKicks pieceI8 1).find? fun o =>
          canPieceFitAt emptyBoard (rotatePiece pieceI8 1).shape
            (8 + o.1) (5 + o.2)) = some (-2, 0) ∧
      (tryRotation emptyBoard pieceI8 1).map (fun q => (q.gridX, q.gridY)) = some (6, 5)) := by
  refine ⟨tryRotation_eq_rotationSpec, ?_, by decide, by decide, by decide, by decide⟩
  intro board p direction q hO hres
  unfold tryRotation at hres
  by_cases hbase : canPieceFitAt board (rotatePiece p direction).shape
      (rotatePiece p direction).gridX (rotatePiece p direction).gridY = true
  · rw [if_pos hbase] at hres
    have hq : q = rotatePiece p direction := by
      exact (Option.some_inj.1 hres).symm
    subst hq
    constructor <;> simp [rotatePiece]
  · rw [if_neg (by simpa using hbase), if_pos hO] at hres
    cases hres

/-- Witness for the rotation claim: the "O" piece rotated on the empty
board keeps its position. -/
theorem rotation_kick_resolution_witness :
    (rotatePiece (createPiece PieceType.O) 1).gridX = (createPiece PieceType.O).gridX ∧
    (rotatePiece (createPiece PieceType.O) 1).gridY = (createPiece PieceType.O).gridY :=
  rotation_kick_resolution.2.1 emptyBoard (createPiece PieceType.O) 1
    (rotatePiece (createPiece PieceType.O) 1) (by decide) (by decide)

/-!
The game simulation engine of `game-engine.js`, embedded as pure state
transformers.  Durations are rationals (the host passes `16.67` ms ticks);
`Date.now()` readings become explicit `now` inputs.  JavaScript numbers
that only ever hold non-negative integers (score, lines, level, combo,
pieces, frame counter, RNG state) are naturals.
-/

/-- The phases of the engine's state machine. -/
inductive Phase
  | MENU | FALLING | LOCKING | CLEARING | PAUSED | GAME_OVER
deriving DecidableEq, Repr

/-- The commands `handleInput` accepts (the `action.type` tags, with their
payloads). -/
inductive Act
  | upPressed
  | moveA (dx dy : Int)
  | rotateA (direction : Int)
  | hardDropA
  | holdA
  | startA
  | pauseA
deriving DecidableEq, Repr

/-- The `this.state` aggregate created by `createInitialState`.
`startTime` is `none` until a game starts (`null` in the source).  The
`seed` field mirrors the snapshot of `this.seed` the source stores in the
state; it is never read back. -/
structure GameState where
  board : Board
  current : Option Piece
  next : Option Piece
  hold : Option Piece
  canHold : Bool
  deathPiece : Option Piece
  phase : Phase
  score : Nat
  lines : Nat
  level : Nat
  combo : Nat
  pieces : Nat
  unlockedPieces : List PieceType
  gravityAccumulator : ℚ
  lockTimer : ℚ
  totalLockTime : ℚ
  clearTimer : ℚ
  spawnedInDanger : Bool
  startTime : Option ℚ
  generation : Nat
  clearingLines : List Nat
  seed : Nat
  frameCount : Nat
deriving DecidableEq, Repr

/-- The engine object around the state: RNG state, replay seed, action log,
error-recovery snapshot and the cached high score.  The particle system and
audio sink are visual/audio collaborators with no effect on game state and
are not modelled. -/
structure Engine where
  state : GameState
  rng : Nat
  seed : Nat
  actionLog : List (Nat × Act)
  lastValid : Option GameState
  errorCount : Nat
  savedHighScore : Nat
deriving DecidableEq, Repr

/-- One step of the `SeededRandom` linear congruential generator:
`state = (state * 1664525 + 1013904223) % 4294967296`. -/
def lcg (s : Nat) : Nat := (s * 1664525 + 1013904223) % 4294967296

/-- The comparison `this.rng.next() < 0.07` made exact: `next()` returns
`state / 2^32`, which is an exact double, and the IEEE double nearest
`0.07` is `5044031582654956 / 2^56`; scaling both sides by `2^56` gives an
integer comparison. -/
def floatChanceHit (s : Nat) : Bool := s * 16777216 < 5044031582654956

/-- `choice(array)` picks index `Math.floor(next() * array.length)`; for
the pool lengths involved, `next() * len` is exact in double arithmetic, so
the index is `state * len / 2^32` in integer division. -/
def choiceIndex (s len : Nat) : Nat := s * len / 4294967296

/-- The standard seven kinds (`CONSTANTS.PIECES.STANDARD`). -/
def standardPieces : List PieceType :=
  [.I, .J, .L, .O, .S, .T, .Z]

/-- The special kinds (`CONSTANTS.PIECES.SPECIAL`). -/
def specialPieces : List PieceType :=
  [.FLOAT, .PLUS, .U, .DOT]

/-- The starting unlocked set: the seven standard kinds plus FLOAT. -/
def startingPieces : List PieceType :=
  [.I, .J, .L, .O, .S, .T, .Z, .FLOAT]

/-- The fixed unlock order of `unlockNewPiece`. -/
def unlockOrder : List PieceType := [.PLUS, .U, .DOT]

/-- The weighted pool of `getNextPiece`: each available kind is replicated
`Math.floor(weight * 100)` times — 100 for standard kinds, 50 for special
kinds (weight 0.5). -/
def weightedPool (avail : List PieceType) : List PieceType :=
  avail.flatMap fun t => List.replicate (if specialPieces.contains t then 50 else 100) t

/-- `getNextPiece` with the engine's RNG threaded explicitly: if FLOAT is
available, one draw decides the 7% FLOAT chance (short-circuit: the draw
happens only when FLOAT is in the pool); otherwise a draw picks uniformly
from the weighted pool.  Returns the chosen kind and the new RNG state.
The `getD .I` default covers the impossible empty pool. -/
def drawPiece (rng : Nat) (avail : List PieceType) : PieceType × Nat :=
  if avail.contains .FLOAT then
    if floatChanceHit (lcg rng) then (.FLOAT, lcg rng)
    else
      let pool := weightedPool avail
      (pool.getD (choiceIndex (lcg (lcg rng)) pool.length) .I, lcg (lcg rng))
  else
    let pool := weightedPool avail
    (pool.getD (choiceIndex (lcg rng) pool.length) .I, lcg rng)

/-- `getNextPiece()`: draw a kind from the unlocked set and create it. -/
def getNextPiece (e : Engine) : Piece × Nat :=
  let d := drawPiece e.rng e.state.unlockedPieces
  (createPiece d.1, d.2)

/-- `createInitialState()`. -/
def createInitialState (seed : Nat) : GameState :=
  { board := List.replicate 20 (List.replicate 10 none)
    current := none
    next := none
    hold := none
    canHold := true
    deathPiece := none
    phase := .MENU
    score := 0
    lines := 0
    level := 1
    combo := 0
    pieces := 0
    unlockedPieces := startingPieces
    gravityAccumulator := 0
    lockTimer := 0
    totalLockTime := 0
    clearTimer := 0
    spawnedInDanger := false
    startTime := none
    generation := 0
    clearingLines := []
    seed := seed
    frameCount := 0 }

/-- The `GameEngine` constructor: initial state, RNG seeded with the
wall-clock reading, cached high score from the config store. -/
def initEngine (ctorNow highScore : Nat) : Engine :=
  { state := createInitialState ctorNow
    rng := ctorNow
    seed := ctorNow
    actionLog := []
    lastValid := none
    errorCount := 0
    savedHighScore := highScore }

/-- `unlockNewPiece()`: if fewer than the three milestone kinds are
unlocked (`unlockedPieces.length - 8 < 3`), append the next kind of the
fixed order and increment the level; otherwise do nothing.  (The
subtraction matches the source for the reachable states, whose unlocked
list always extends the 8 starting kinds.) -/
def unlockNewPiece (s : GameState) : GameState :=
  let currentPieceCount := s.unlockedPieces.length - 8
  if currentPieceCount < 3 then
    { s with
      unlockedPieces := s.unlockedPieces ++ [unlockOrder.getD currentPieceCount .I]
      level := s.level + 1 }
  else s

/-- The score-then-milestone pattern shared verbatim by the soft-drop and
hard-drop scoring sites: add the points, then call `unlockNewPiece` exactly
when `floor(score/3000)` increased. -/
def addScoreChecked (s : GameState) (gain : Nat) : GameState :=
  let oldScore := s.score
  let s1 := { s with score := s.score + gain }
  if s1.score / 3000 > oldScore / 3000 then unlockNewPiece s1 else s1

/-- `isPartiallyBlocked(piece)`: can the piece be nudged left, right or
down one cell, or rotated in either direction (with kicks)? -/
def isPartiallyBlocked (board : Board) (p : Piece) : Bool :=
  canPieceFitAt board p.shape (p.gridX + -1) (p.gridY + 0) ||
  canPieceFitAt board p.shape (p.gridX + 1) (p.gridY + 0) ||
  canPieceFitAt board p.shape (p.gridX + 0) (p.gridY + 1) ||
  (tryRotation board p (-1)).isSome ||
  (tryRotation board p 1).isSome

/-- `spawnNextPiece()`: try the queued next piece at its spawn cell; on a
clean fit enter FALLING, on a partial block enter LOCKING with the danger
flag (1-second grace), otherwise game over.  The `next = none` branch
returns the engine unchanged: it models a state the source would crash on
(`{...null}` spread followed by a shape access) and is unreachable in
play, where `next` is always set outside MENU/GAME_OVER. -/
def spawnNextPiece (e : Engine) : Engine :=
  if e.state.phase = .GAME_OVER then e
  else match e.state.next with
  | none => e
  | some nx =>
    let newPiece := { nx with generation := e.state.generation + 1, upMovesUsed := 0 }
    if canSpawn e.state.board newPiece then
      let d := getNextPiece e
      { e with
        rng := d.2
        state := { e.state with
          current := some newPiece
          next := some d.1
          phase := .FALLING
          spawnedInDanger := false
          generation := e.state.generation + 1 } }
    else if isPartiallyBlocked e.state.board newPiece then
      let d := getNextPiece e
      { e with
        rng := d.2
        state := { e.state with
          current := some newPiece
          next := some d.1
          phase := .LOCKING
          lockTimer := 0
          totalLockTime := 0
          spawnedInDanger := true
          generation := e.state.generation + 1 } }
    else
      { e with
        state := { e.state with deathPiece := some newPiece, phase := .GAME_OVER }
        savedHighScore := max e.savedHighScore e.state.score }

/-- `lockPiece()`: a piece still above the board is a death lock (placed
for the death pose, game over, no line evaluation); otherwise the piece is
written to the board, pieces-placed incremented, the danger flag cleared,
and either CLEARING is entered (lines found, hold re-enabled) or the next
piece spawns directly. -/
def lockPiece (e : Engine) : Engine :=
  match e.state.current with
  | none => e
  | some cur =>
    if cur.gridY < 0 then
      { e with
        state := { e.state with
          board := placePiece e.state.board cur
          deathPiece := some cur
          phase := .GAME_OVER
          current := none }
        savedHighScore := max e.savedHighScore e.state.score }
    else
      let newBoard := placePiece e.state.board cur
      let clearedLines := findClearedLines newBoard
      if clearedLines.length > 0 then
        { e with
          state := { e.state with
            pieces := e.state.pieces + 1
            spawnedInDanger := false
            board := newBoard
            current := none
            phase := .CLEARING
            clearTimer := 0
            clearingLines := clearedLines
            canHold := true } }
      else
        spawnNextPiece { e with
          state := { e.state with
            pieces := e.state.pieces + 1
            spawnedInDanger := false
            board := newBoard
            current := none
            canHold := true } }

/-- `finishClearing()`: remove the flagged lines, award line and combo
score, check the 3000-point milestone (the old milestone is recomputed by
subtracting the just-awarded points, as in the source), update the combo
counter — reset to 0 only when this clear event had zero lines — and spawn
the next piece. -/
def finishClearing (e : Engine) : Engine :=
  let newBoard := removeClearedLines e.state.board e.state.clearingLines
  let linesCleared := e.state.clearingLines.length
  let lineScore := [0, 100, 300, 500, 800].getD (min linesCleared 4) 0 * e.state.level
  let comboScore := if e.state.combo > 0 then 50 * e.state.combo * e.state.level else 0
  let s1 := { e.state with
    board := newBoard
    clearingLines := []
    lines := e.state.lines + linesCleared
    score := e.state.score + lineScore + comboScore }
  let oldMilestone := (s1.score - lineScore - comboScore) / 3000
  let newMilestone := s1.score / 3000
  let s2 := if newMilestone > oldMilestone then unlockNewPiece s1 else s1
  let s3 := { s2 with combo := if linesCleared > 0 then s2.combo + 1 else 0 }
  spawnNextPiece { e with state := s3 }

/-- `move(dx, dy)`: try the exact target via the fit test; on success
update the piece (tracking FLOAT up-moves), reset gravity on vertical
moves, re-evaluate the falling/locking transition, and award soft-drop
points (1 per row, with the milestone check) for downward moves.  On
failure, a FLOAT moving purely horizontally is retried one row lower.
Rejected moves leave the engine unchanged. -/
def move (dx dy : Int) (e : Engine) : Engine :=
  match e.state.current with
  | none => e
  | some piece =>
    let targetX := piece.gridX + dx
    let targetY := piece.gridY + dy
    if canPieceFitAt e.state.board piece.shape targetX targetY then
      let p1 := { piece with
        gridX := targetX
        gridY := targetY
        upMovesUsed :=
          if piece.type = .FLOAT ∧ dy < 0 then piece.upMovesUsed + 1 else piece.upMovesUsed }
      let s0 : GameState := { e.state with
        current := some p1
        gravityAccumulator := if dy ≠ 0 then 0 else e.state.gravityAccumulator }
      let canFall := canPieceFitAt s0.board p1.shape p1.gridX (p1.gridY + 1)
      let s1 : GameState :=
        if canFall = false then
          if s0.phase = .FALLING then { s0 with phase := .LOCKING, lockTimer := 0 } else s0
        else if canFall = true ∧ s0.phase = Phase.LOCKING then
          if ¬ (p1.type = .FLOAT ∧ dy < 0) then { s0 with phase := .FALLING, lockTimer := 0 }
          else s0
        else if s0.phase = .LOCKING then { s0 with lockTimer := 0 }
        else s0
      let s2 := if dy > 0 then addScoreChecked s1 dy.toNat else s1
      { e with state := s2 }
    else if piece.type = .FLOAT ∧ dx ≠ 0 ∧ dy = 0 then
      if targetY + 1 < 20 ∧ canPieceFitAt e.state.board piece.shape targetX (targetY + 1) then
        { e with state := { e.state with
            current := some { piece with gridX := targetX, gridY := targetY + 1 } } }
      else e
    else e

/-- `rotate(direction)`: delegate to wall-kick resolution; on failure no
state change, on success install the rotated piece and re-evaluate the
falling/locking transition exactly as movement does. -/
def rotateCmd (direction : Int) (e : Engine) : Engine :=
  match e.state.current with
  | none => e
  | some piece =>
    match tryRotation e.state.board piece direction with
    | none => e
    | some rp =>
      let s0 : GameState := { e.state with current := some rp }
      let canFall := canPieceFitAt s0.board rp.shape rp.gridX (rp.gridY + 1)
      let s1 : GameState :=
        if canFall = false ∧ s0.phase = .FALLING then { s0 with phase := .LOCKING, lockTimer := 0 }
        else if canFall = true ∧ s0.phase = Phase.LOCKING then { s0 with phase := .FALLING, lockTimer := 0 }
        else if s0.phase = .LOCKING then { s0 with lockTimer := 0 }
        else s0
      { e with state := s1 }

/-- `hardDrop()`: move to the shadow row, award 2 points per row dropped
(with the milestone check), then lock immediately. -/
def hardDrop (e : Engine) : Engine :=
  match e.state.current with
  | none => e
  | some piece =>
    let shadowY := calculateShadow e.state.board piece
    let dropDistance := shadowY - piece.gridY
    let e1 :=
      if dropDistance > 0 then
        let sDrop := { e.state with current := some { piece with gridY := shadowY } }
        { e with state := addScoreChecked sDrop (2 * dropDistance.toNat) }
      else e
    lockPiece e1

/-- `tryHold()`: rejected (no state change) without a current piece or when
holding is disabled.  Otherwise both pieces are re-created fresh from the
factory and holding is disabled until the next lock.  The source assigns
`this.state.hold = heldPiece` before evaluating
`this.state.hold ? this.state.next : this.getNextPiece()`, so that test
always sees the just-stored piece and the next-piece queue is never
advanced; the conditional below reproduces this on the just-assigned
value.  The branch where both `hold` and `next` are `null` would crash in
the source (`null.type`) and returns the engine unchanged here; it is
unreachable in play. -/
def tryHold (e : Engine) : Engine :=
  match e.state.current, e.state.canHold with
  | some held, true =>
    match e.state.hold.orElse (fun _ => e.state.next) with
    | none => e
    | some newCurrent =>
      let heldPiece := createPiece held.type
      let activePiece := { createPiece newCurrent.type with
        generation := e.state.generation + 1
        upMovesUsed := 0 }
      { e with state := { e.state with
          current := some activePiece
          hold := some heldPiece
          next := if (some heldPiece).isSome then e.state.next else some (getNextPiece e).1
          canHold := false
          phase := .FALLING
          generation := e.state.generation + 1 } }
  | _, _ => e

/-- `togglePause()`: FALLING/LOCKING pause to PAUSED, PAUSED resumes to
FALLING, other phases ignore the toggle. -/
def togglePause (e : Engine) : Engine :=
  if e.state.phase = .FALLING ∨ e.state.phase = .LOCKING then
    { e with state := { e.state with phase := .PAUSED } }
  else if e.state.phase = .PAUSED then
    { e with state := { e.state with phase := .FALLING } }
  else e

/-- `processFalling(deltaTime)`: accumulate gravity; the effective delay
combines the session-time and score progress factors, clamped to
`max(50, 1000 - progress * 3)` and eased by `1.05^(level-1)`.  When the
accumulator reaches the delay, try to fall one row; landing (or failing to
fall) enters LOCKING with the lock timers reset. -/
def processFalling (dt now : ℚ) (e : Engine) : Engine :=
  match e.state.current with
  | none => { e with state := { e.state with phase := .GAME_OVER } }
  | some cur =>
    let newAccumulator := e.state.gravityAccumulator + dt
    let timeFactor := (now - e.state.startTime.getD 0) / 2000
    let scoreFactor := (e.state.score : ℚ) / 200
    let combinedProgress := max timeFactor scoreFactor
    let gravityDelay := max 50 (1000 - combinedProgress * 3) * (21 / 20 : ℚ) ^ (e.state.level - 1)
    if newAccumulator ≥ gravityDelay then
      if canPieceFitAt e.state.board cur.shape cur.gridX (cur.gridY + 1) then
        let p1 := { cur with gridY := cur.gridY + 1 }
        if canPieceFitAt e.state.board p1.shape p1.gridX (p1.gridY + 1) = false then
          { e with state := { e.state with
              current := some p1
              gravityAccumulator := 0
              phase := .LOCKING
              lockTimer := 0
              totalLockTime := 0 } }
        else
          { e with state := { e.state with current := some p1, gravityAccumulator := 0 } }
      else
        { e with state := { e.state with
            phase := .LOCKING
            lockTimer := 0
            totalLockTime := 0
            gravityAccumulator := 0 } }
    else
      { e with state := { e.state with gravityAccumulator := newAccumulator } }

/-- `processLocking(deltaTime)`: a piece that can fall again returns to
FALLING; past 5000 ms of total lock time the lock is forced; otherwise the
applicable delay (600 ms for FLOAT, 1000 ms after a danger spawn, else
500 ms) runs down.  A `null` current piece would crash the source here
(`current.type` after the fit test short-circuits) and leaves the engine
unchanged in this model; it is unreachable in play. -/
def processLocking (dt : ℚ) (e : Engine) : Engine :=
  match e.state.current with
  | none => e
  | some cur =>
    let newLockTimer := e.state.lockTimer + dt
    let newTotalLockTime := e.state.totalLockTime + dt
    if canPieceFitAt e.state.board cur.shape cur.gridX (cur.gridY + 1) then
      { e with state := { e.state with phase := .FALLING, lockTimer := 0, totalLockTime := 0 } }
    else if newTotalLockTime ≥ 5000 then lockPiece e
    else
      let lockDelay : ℚ :=
        if cur.type = .FLOAT then 600
        else if e.state.spawnedInDanger then 1000
        else 500
      if newLockTimer ≥ lockDelay then lockPiece e
      else
        { e with state := { e.state with
            lockTimer := newLockTimer
            totalLockTime := newTotalLockTime } }

/-- `processClearing(deltaTime)`: run the 300 ms clear animation timer,
then finalize. -/
def processClearing (dt : ℚ) (e : Engine) : Engine :=
  let newClearTimer := e.state.clearTimer + dt
  if newClearTimer ≥ 300 then finishClearing e
  else { e with state := { e.state with clearTimer := newClearTimer } }

/-- `validateState()`: the structural checks of the source.  The remaining
source checks — `score < 0`, `lines < 0`, and an unrecognized
`current.type` — cannot fail in this typed embedding (scores are naturals
and piece types are drawn from the `PieceType` enumeration), so the board
shape is the live check. -/
def validateState (s : GameState) : Bool :=
  s.board.length == 20

/-- `recoverFromError()`: restore the last snapshot (dropping the active
piece) or, with no snapshot, fully reset to the menu state. -/
def recoverFromError (e : Engine) : Engine :=
  let e1 := { e with errorCount := e.errorCount + 1 }
  match e1.lastValid with
  | some s => { e1 with state := { s with current := none } }
  | none => { e1 with state := createInitialState e1.seed }

/-- `tick(deltaTime)`: validate (recovering on failure), snapshot every 60
frames, skip MENU/PAUSED/GAME_OVER, dispatch on the phase, and advance the
frame counter. -/
def tick (dt now : ℚ) (e : Engine) : Engine :=
  if validateState e.state = false then recoverFromError e
  else
    let e1 :=
      if e.state.frameCount % 60 = 0 then { e with lastValid := some e.state } else e
    if e1.state.phase = .MENU ∨ e1.state.phase = .PAUSED ∨ e1.state.phase = .GAME_OVER then e1
    else
      let e2 :=
        match e1.state.phase with
        | .FALLING => processFalling dt now e1
        | .LOCKING => processLocking dt e1
        | .CLEARING => processClearing dt e1
        | _ => e1
      { e2 with state := { e2.state with frameCount := e2.state.frameCount + 1 } }

/-- `startGame()`: only from MENU or GAME_OVER; fresh state in FALLING with
the start time recorded, two pieces drawn with the engine's current RNG,
then the action log cleared and the RNG reseeded from the wall clock
(`nowSeed`), as the source does after drawing. -/
def startGame (now : ℚ) (nowSeed : Nat) (e : Engine) : Engine :=
  if e.state.phase ≠ .MENU ∧ e.state.phase ≠ .GAME_OVER then e
  else
    let e1 := { e with state :=
      { createInitialState e.seed with phase := .FALLING, startTime := some now } }
    let d1 := getNextPiece e1
    let e2 := { e1 with state := { e1.state with current := some d1.1 }, rng := d1.2 }
    let d2 := getNextPiece e2
    let e3 := { e2 with state := { e2.state with next := some d2.1 }, rng := d2.2 }
    { e3 with
      actionLog := []
      seed := nowSeed
      rng := nowSeed
      errorCount := 0
      lastValid := none }

/-- `handleInput(action)`: log the action, then dispatch.  `UP_PRESSED` is
an upward micro-move for a FLOAT with remaining float budget, otherwise a
clockwise rotation.  `now`/`nowSeed` are the wall-clock readings a start
command would consume. -/
def handleInput (a : Act) (now : ℚ) (nowSeed : Nat) (e : Engine) : Engine :=
  let e0 := { e with actionLog := e.actionLog ++ [(e.state.frameCount, a)] }
  match a with
  | .upPressed =>
    match e0.state.current with
    | some c =>
      if c.type = .FLOAT ∧ c.upMovesUsed < 7 then move 0 (-1) e0 else rotateCmd 1 e0
    | none => rotateCmd 1 e0
  | .moveA dx dy => move dx dy e0
  | .rotateA d => rotateCmd d e0
  | .hardDropA => hardDrop e0
  | .holdA => tryHold e0
  | .startA => startGame now nowSeed e0
  | .pauseA => togglePause e0

/-- One external operation on the engine: a host tick (with its wall-clock
reading) or a player command. -/
inductive Op
  | tickOp (dt now : ℚ)
  | inputOp (a : Act) (now : ℚ) (nowSeed : Nat)
deriving DecidableEq, Repr

/-- Apply one operation. -/
def applyOp : Op → Engine → Engine
  | .tickOp dt now, e => tick dt now e
  | .inputOp a now nowSeed, e => handleInput a now nowSeed e

/-- Apply a sequence of operations in order. -/
def applyOps : List Op → Engine → Engine
  | [], e => e
  | op :: rest, e => applyOps rest (applyOp op e)

/-- Operations that stay inside one game session: everything except a
start command. -/
def isSessionOp : Op → Bool
  | .inputOp .startA _ _ => false
  | _ => true

/-- Engine states reachable from a fresh construction by some sequence of
ticks and commands. -/
def Reachable (e : Engine) : Prop :=
  ∃ ctorNow highScore ops, e = applyOps ops (initEngine ctorNow highScore)

/-- The initialization layer of the static `replay(seed, actions)`: a fresh
engine with an empty config store, the given `seed` installed and the RNG
seeded from it, then `startGame()` (whose body the source then feeds with
`tick(16.67)` calls and the logged actions).  `ctorNow` is the constructor
wall-clock reading; `now` and `nowSeed` are the readings `startGame`
itself makes. -/
def replayStart (ctorNow seed : Nat) (now : ℚ) (nowSeed : Nat) : Engine :=
  startGame now nowSeed { initEngine ctorNow 0 with seed := seed, rng := seed }

/-- Structural invariant of reachable game states: the board is 20 rows of
10 cells; CLEARING always carries a non-empty clearing list (it is only
entered when locking found lines); outside MENU and GAME_OVER the
next-piece queue is filled; and MENU, GAME_OVER and CLEARING have no
active piece. -/
def StateInv (s : GameState) : Prop :=
  s.board.length = 20 ∧
  (∀ r ∈ s.board, r.length = 10) ∧
  (s.phase = .CLEARING → s.clearingLines ≠ []) ∧
  ((s.phase ≠ .MENU ∧ s.phase ≠ .GAME_OVER) → s.next.isSome = true) ∧
  (s.phase = .MENU → s.current = none) ∧
  (s.phase = .GAME_OVER → s.current = none) ∧
  (s.phase = .CLEARING → s.current = none)

/-- Unlock-progression invariant: the unlocked list is the 8 starting kinds
followed by a prefix of the fixed unlock order, and the level counts the
unlocks. -/
def UnlockInv (s : GameState) : Prop :=
  ∃ k, k ≤ 3 ∧ s.unlockedPieces = startingPieces ++ unlockOrder.take k ∧ s.level = 1 + k

theorem foldl_preserve {α : Type} (P : Board → Prop) (f : Board → α → Board)
    (hf : ∀ b a, P b → P (f b a)) :
    ∀ (l : List α) (b : Board), P b → P (l.foldl f b) := by
  intro l
  induction l with
  | nil => intro b hb; simpa using hb
  | cons a rest ih => intro b hb; simpa using ih (f b a) (hf b a hb)


theorem placeCell_wf (color : String) (b2 : Board) (xi yi : Int) (n : Nat)
    (h : b2.length = n ∧ ∀ r ∈ b2, r.length = 10) :
    (placeCell color b2 xi yi).length = n ∧ ∀ r ∈ placeCell color b2 xi yi, r.length = 10 := by
  obtain ⟨hlen, h10⟩ := h
  unfold placeCell
  split
  · rename_i hbound
    constructor
    · simpa using hlen
    · intro r hr
      rcases List.mem_or_eq_of_mem_set hr with h' | h'
      · exact h10 r h'
      · have hy : yi.toNat < b2.length := by omega
        have hrow : b2.getD yi.toNat [] ∈ b2 := by
          have := List.getD_eq_getElem b2 [] hy
          rw [this]
          exact List.getElem_mem hy
        subst h'
        simpa using h10 _ hrow
  · exact ⟨hlen, h10⟩

theorem placePiece_wf (board : Board) (p : Piece) (n : Nat)
    (hlen : board.length = n) (h10 : ∀ r ∈ board, r.length = 10) :
    (placePiece board p).length = n ∧ ∀ r ∈ placePiece board p, r.length = 10 := by
  unfold placePiece
  refine foldl_preserve (fun b => b.length = n ∧ ∀ r ∈ b, r.length = 10) _ ?_ _ board ⟨hlen, h10⟩
  intro b cellRow hb
  refine foldl_preserve (fun b => b.length = n ∧ ∀ r ∈ b, r.length = 10) _ ?_ _ b hb
  intro b2 cellEntry hb2
  split
  · exact placeCell_wf p.color b2 _ _ n hb2
  · exact hb2

theorem removeClearedLines_wf (board : Board) (lines : List Nat)
    (h20 : board.length = 20) (h10 : ∀ r ∈ board, r.length = 10) :
    (removeClearedLines board lines).length = 20 ∧
    ∀ r ∈ removeClearedLines board lines, r.length = 10 := by
  have hkept : ((board.enum.filter fun rowEntry => !lines.contains rowEntry.1).map
      (fun rowEntry => rowEntry.2)) = keptRowsSpec board 0 lines := by
    simpa [List.enum] using keptRowsSpec_eq_filter lines board 0
  have hle : (keptRowsSpec board 0 lines).length ≤ 20 :=
    h20 ▸ keptRowsSpec_length_le lines board 0
  constructor
  · unfold removeClearedLines
    rw [hkept]
    simp
    omega
  · intro r hr
    unfold removeClearedLines at hr
    rw [hkept] at hr
    rcases List.mem_append.1 hr with h' | h'
    · simp [List.eq_of_mem_replicate h']
    · exact h10 r (keptRowsSpec_mem lines board 0 r h')

theorem StateInv_of_fields {s s' : GameState} (h : StateInv s)
    (hb : s'.board = s.board) (hp : s'.phase = s.phase)
    (hc : s'.clearingLines = s.clearingLines) (hn : s'.next = s.next)
    (hcur : s'.current = s.current) : StateInv s' := by
  unfold StateInv at h ⊢
  rw [hb, hp, hc, hn, hcur]
  exact h

theorem UnlockInv_congr {s s' : GameState} (hu : s'.unlockedPieces = s.unlockedPieces)
    (hl : s'.level = s.level) (h : UnlockInv s) : UnlockInv s' := by
  unfold UnlockInv at h ⊢
  rw [hu, hl]
  exact h

theorem unlockNewPiece_fields (s : GameState) :
    (unlockNewPiece s).score = s.score ∧ (unlockNewPiece s).lines = s.lines ∧
    (unlockNewPiece s).pieces = s.pieces ∧ (unlockNewPiece s).combo = s.combo ∧
    (unlockNewPiece s).board = s.board ∧ (unlockNewPiece s).phase = s.phase ∧
    (unlockNewPiece s).clearingLines = s.clearingLines ∧
    (unlockNewPiece s).next = s.next ∧ (unlockNewPiece s).current = s.current ∧
    (unlockNewPiece s).canHold = s.canHold := by
  unfold unlockNewPiece
  dsimp only
  split <;> simp

theorem startingPieces_length : startingPieces.length = 8 := by decide

theorem unlockNewPiece_unlockInv (s : GameState) (h : UnlockInv s) :
    UnlockInv (unlockNewPiece s) := by
  obtain ⟨k, hk, hu, hl⟩ := h
  have hcount : s.unlockedPieces.length - 8 = k := by
    rw [hu]
    simp [startingPieces, unlockOrder, List.length_take]
    omega
  unfold unlockNewPiece
  dsimp only
  rw [hcount]
  split
  · rename_i hlt
    refine ⟨k + 1, by omega, ?_, by simp [hl]; omega⟩
    rw [hu, List.append_assoc]
    have hstep : unlockOrder.take k ++ [unlockOrder.getD k .I] = unlockOrder.take (k + 1) := by
      have hcases : k = 0 ∨ k = 1 ∨ k = 2 := by omega
      rcases hcases with h' | h' | h' <;> subst h' <;> decide
    rw [hstep]
  · exact ⟨k, hk, hu, hl⟩

theorem addScoreChecked_fields (s : GameState) (gain : Nat) :
    (addScoreChecked s gain).score = s.score + gain ∧
    (addScoreChecked s gain).lines = s.lines ∧
    (addScoreChecked s gain).pieces = s.pieces ∧
    (addScoreChecked s gain).combo = s.combo ∧
    (addScoreChecked s gain).board = s.board ∧
    (addScoreChecked s gain).phase = s.phase ∧
    (addScoreChecked s gain).clearingLines = s.clearingLines ∧
    (addScoreChecked s gain).next = s.next ∧
    (addScoreChecked s gain).current = s.current ∧
    (addScoreChecked s gain).canHold = s.canHold := by
  unfold addScoreChecked
  dsimp only
  split
  · have h := unlockNewPiece_fields { s with score := s.score + gain }
    simp_all
  · simp

theorem addScoreChecked_unlockInv (s : GameState) (gain : Nat) (h : UnlockInv s) :
    UnlockInv (addScoreChecked s gain) := by
  unfold addScoreChecked
  dsimp only
  split
  · exact unlockNewPiece_unlockInv _ (UnlockInv_congr rfl rfl h)
  · exact UnlockInv_congr rfl rfl h

theorem addScoreChecked_stateInv (s : GameState) (gain : Nat) (h : StateInv s) :
    StateInv (addScoreChecked s gain) := by
  have hf := addScoreChecked_fields s gain
  exact StateInv_of_fields h hf.2.2.2.2.1 hf.2.2.2.2.2.1 hf.2.2.2.2.2.2.1
    hf.2.2.2.2.2.2.2.1 hf.2.2.2.2.2.2.2.2.1

theorem spawnNextPiece_frozen (e : Engine) :
    (spawnNextPiece e).state.score = e.state.score ∧
    (spawnNextPiece e).state.lines = e.state.lines ∧
    (spawnNextPiece e).state.pieces = e.state.pieces ∧
    (spawnNextPiece e).state.combo = e.state.combo ∧
    (spawnNextPiece e).state.unlockedPieces = e.state.unlockedPieces ∧
    (spawnNextPiece e).state.level = e.state.level ∧
    (spawnNextPiece e).state.canHold = e.state.canHold := by
  unfold spawnNextPiece
  dsimp only
  split
  · simp
  · split
    · simp
    · split
      · simp
      · split
        · simp
        · simp

theorem spawnNextPiece_stateInv (e : Engine)
    (h20 : e.state.board.length = 20) (h10 : ∀ r ∈ e.state.board, r.length = 10)
    (hnext : e.state.phase ≠ .GAME_OVER → e.state.next.isSome = true)
    (hcur : e.state.current = none) :
    StateInv (spawnNextPiece e).state := by
  unfold spawnNextPiece
  dsimp only
  split
  · rename_i hGO
    exact ⟨h20, h10, by simp [hGO], by simp [hGO], by simp [hGO], fun _ => hcur, by simp [hGO]⟩
  · rename_i hGO
    split
    · rename_i hnone
      exact absurd (hnext hGO) (by simp [hnone])
    · rename_i nx hnx
      split
      · exact ⟨h20, h10, by simp, by simp, by simp, by simp, by simp⟩
      · split
        · exact ⟨h20, h10, by simp, by simp, by simp, by simp, by simp⟩
        · exact ⟨h20, h10, by simp, by simp, by simp, fun _ => hcur, by simp⟩

theorem spawnNextPiece_unlockInv (e : Engine) (h : UnlockInv e.state) :
    UnlockInv (spawnNextPiece e).state :=
  UnlockInv_congr (spawnNextPiece_frozen e).2.2.2.2.1 (spawnNextPiece_frozen e).2.2.2.2.2.1 h

theorem lockPiece_mono (e : Engine) :
    e.state.score ≤ (lockPiece e).state.score ∧
    e.state.lines ≤ (lockPiece e).state.lines ∧
    e.state.pieces ≤ (lockPiece e).state.pieces ∧
    (lockPiece e).state.unlockedPieces = e.state.unlockedPieces ∧
    (lockPiece e).state.level = e.state.level ∧
    (lockPiece e).state.combo = e.state.combo := by
  unfold lockPiece
  dsimp only
  split
  · simp
  · split
    · simp
    · split
      · simp
      · refine ⟨?_, ?_, ?_, ?_, ?_, ?_⟩
        · rw [(spawnNextPiece_frozen _).1]; try simp
        · rw [(spawnNextPiece_frozen _).2.1]; try simp
        · rw [(spawnNextPiece_frozen _).2.2.1]; try simp
        · rw [(spawnNextPiece_frozen _).2.2.2.2.1]; try simp
        · rw [(spawnNextPiece_frozen _).2.2.2.2.2.1]; try simp
        · rw [(spawnNextPiece_frozen _).2.2.2.1]; try simp

theorem lockPiece_stateInv (e : Engine) (h : StateInv e.state) :
    StateInv (lockPiece e).state := by
  obtain ⟨h20, h10, hclear, hnext, hmenu, hgo, hclr⟩ := h
  unfold lockPiece
  dsimp only
  split
  · exact ⟨h20, h10, hclear, hnext, hmenu, hgo, hclr⟩
  · rename_i cur hcur
    have hphaseM : e.state.phase ≠ .MENU := fun hp => by simp [hmenu hp] at hcur
    have hphaseG : e.state.phase ≠ .GAME_OVER := fun hp => by simp [hgo hp] at hcur
    have hphaseC : e.state.phase ≠ .CLEARING := fun hp => by simp [hclr hp] at hcur
    have hw := placePiece_wf e.state.board cur 20 h20 h10
    split
    · exact ⟨hw.1, hw.2, by simp, by simp, by simp, by simp, by simp⟩
    · split
      · rename_i hlines
        refine ⟨hw.1, hw.2, ?_, ?_, by simp, by simp, by simp⟩
        · intro _
          simpa using List.length_pos.mp hlines
        · intro _
          simpa using hnext ⟨hphaseM, hphaseG⟩
      · apply spawnNextPiece_stateInv
        · simpa using hw.1
        · simpa using hw.2
        · intro _
          simpa using hnext ⟨hphaseM, hphaseG⟩
        · simp

theorem lockPiece_unlockInv (e : Engine) (h : UnlockInv e.state) :
    UnlockInv (lockPiece e).state :=
  UnlockInv_congr (lockPiece_mono e).2.2.2.1 (lockPiece_mono e).2.2.2.2.1 h

theorem unlockNewPiece_score (s : GameState) : (unlockNewPiece s).score = s.score :=
  (unlockNewPiece_fields s).1

theorem unlockNewPiece_lines (s : GameState) : (unlockNewPiece s).lines = s.lines :=
  (unlockNewPiece_fields s).2.1

theorem unlockNewPiece_pieces (s : GameState) : (unlockNewPiece s).pieces = s.pieces :=
  (unlockNewPiece_fields s).2.2.1

theorem unlockNewPiece_combo (s : GameState) : (unlockNewPiece s).combo = s.combo :=
  (unlockNewPiece_fields s).2.2.2.1

theorem unlockNewPiece_board (s : GameState) : (unlockNewPiece s).board = s.board :=
  (unlockNewPiece_fields s).2.2.2.2.1

theorem unlockNewPiece_phase (s : GameState) : (unlockNewPiece s).phase = s.phase :=
  (unlockNewPiece_fields s).2.2.2.2.2.1

theorem unlockNewPiece_clearingLines (s : GameState) : (unlockNewPiece s).clearingLines = s.clearingLines :=
  (unlockNewPiece_fields s).2.2.2.2.2.2.1

theorem unlockNewPiece_next_eq (s : GameState) : (unlockNewPiece s).next = s.next :=
  (unlockNewPiece_fields s).2.2.2.2.2.2.2.1

theorem unlockNewPiece_current (s : GameState) : (unlockNewPiece s).current = s.current :=
  (unlockNewPiece_fields s).2.2.2.2.2.2.2.2.1

theorem unlockNewPiece_canHold (s : GameState) : (unlockNewPiece s).canHold = s.canHold :=
  (unlockNewPiece_fields s).2.2.2.2.2.2.2.2.2

theorem addScoreChecked_score (s : GameState) (gain : Nat) :
    (addScoreChecked s gain).score = s.score + gain :=
  (addScoreChecked_fields s gain).1

theorem addScoreChecked_lines (s : GameState) (gain : Nat) :
    (addScoreChecked s gain).lines = s.lines :=
  (addScoreChecked_fields s gain).2.1

theorem addScoreChecked_pieces (s : GameState) (gain : Nat) :
    (addScoreChecked s gain).pieces = s.pieces :=
  (addScoreChecked_fields s gain).2.2.1

theorem addScoreChecked_combo (s : GameState) (gain : Nat) :
    (addScoreChecked s gain).combo = s.combo :=
  (addScoreChecked_fields s gain).2.2.2.1

theorem addScoreChecked_board (s : GameState) (gain : Nat) :
    (addScoreChecked s gain).board = s.board :=
  (addScoreChecked_fields s gain).2.2.2.2.1

theorem addScoreChecked_phase (s : GameState) (gain : Nat) :
    (addScoreChecked s gain).phase = s.phase :=
  (addScoreChecked_fields s gain).2.2.2.2.2.1

theorem addScoreChecked_clearingLines (s : GameState) (gain : Nat) :
    (addScoreChecked s gain).clearingLines = s.clearingLines :=
  (addScoreChecked_fields s gain).2.2.2.2.2.2.1

theorem addScoreChecked_next_eq (s : GameState) (gain : Nat) :
    (addScoreChecked s gain).next = s.next :=
  (addScoreChecked_fields s gain).2.2.2.2.2.2.2.1

theorem addScoreChecked_current (s : GameState) (gain : Nat) :
    (addScoreChecked s gain).current = s.current :=
  (addScoreChecked_fields s gain).2.2.2.2.2.2.2.2.1

theorem addScoreChecked_canHold (s : GameState) (gain : Nat) :
    (addScoreChecked s gain).canHold = s.canHold :=
  (addScoreChecked_fields s gain).2.2.2.2.2.2.2.2.2

theorem spawnNextPiece_score (e : Engine) :
    (spawnNextPiece e).state.score = e.state.score :=
  (spawnNextPiece_frozen e).1

theorem spawnNextPiece_lines (e : Engine) :
    (spawnNextPiece e).state.lines = e.state.lines :=
  (spawnNextPiece_frozen e).2.1

theorem spawnNextPiece_pieces (e : Engine) :
    (spawnNextPiece e).state.pieces = e.state.pieces :=
  (spawnNextPiece_frozen e).2.2.1

theorem spawnNextPiece_combo (e : Engine) :
    (spawnNextPiece e).state.combo = e.state.combo :=
  (spawnNextPiece_frozen e).2.2.2.1

theorem spawnNextPiece_unlockedPieces (e : Engine) :
    (spawnNextPiece e).state.unlockedPieces = e.state.unlockedPieces :=
  (spawnNextPiece_frozen e).2.2.2.2.1

theorem spawnNextPiece_level (e : Engine) :
    (spawnNextPiece e).state.level = e.state.level :=
  (spawnNextPiece_frozen e).2.2.2.2.2.1

theorem spawnNextPiece_canHold (e : Engine) :
    (spawnNextPiece e).state.canHold = e.state.canHold :=
  (spawnNextPiece_frozen e).2.2.2.2.2.2

theorem finishClearing_fields (e : Engine) :
    (finishClearing e).state.score = e.state.score
      + [0, 100, 300, 500, 800].getD (min e.state.clearingLines.length 4) 0 * e.state.level
      + (if e.state.combo > 0 then 50 * e.state.combo * e.state.level else 0) ∧
    (finishClearing e).state.lines = e.state.lines + e.state.clearingLines.length ∧
    (finishClearing e).state.pieces = e.state.pieces ∧
    (finishClearing e).state.combo =
      (if e.state.clearingLines.length > 0 then e.state.combo + 1 else 0) := by
  unfold finishClearing
  dsimp only
  split <;> split <;>
    refine ⟨?_, ?_, ?_, ?_⟩ <;>
      simp [spawnNextPiece_score, spawnNextPiece_lines, spawnNextPiece_pieces,
        spawnNextPiece_combo, unlockNewPiece_score, unlockNewPiece_lines,
        unlockNewPiece_pieces, unlockNewPiece_combo]

theorem finishClearing_stateInv (e : Engine) (h : StateInv e.state)
    (hP : e.state.phase = .CLEARING) : StateInv (finishClearing e).state := by
  obtain ⟨h20, h10, hclear, hnext, hmenu, hgo, hclr⟩ := h
  have hw := removeClearedLines_wf e.state.board e.state.clearingLines h20 h10
  have hnx : e.state.next.isSome = true := hnext (by simp [hP])
  have hcu : e.state.current = none := hclr hP
  unfold finishClearing
  dsimp only
  apply spawnNextPiece_stateInv
  · dsimp only
    split <;> split <;> simp [unlockNewPiece_board, hw.1]
  · dsimp only
    split <;> split <;> ((try simp only [unlockNewPiece_board]); exact hw.2)
  · intro _
    dsimp only
    split <;> split <;> simp [unlockNewPiece_next_eq, hnx]
  · dsimp only
    split <;> split <;> simp [unlockNewPiece_current, hcu]

theorem finishClearing_unlockInv (e : Engine) (h : UnlockInv e.state) :
    UnlockInv (finishClearing e).state := by
  unfold finishClearing
  dsimp only
  apply spawnNextPiece_unlockInv
  obtain ⟨k, hk, hu, hl⟩ := h
  unfold UnlockInv
  dsimp only
  split <;> split <;>
    first
      | exact ⟨k, hk, hu, hl⟩
      | (refine unlockNewPiece_unlockInv _ ?_; exact ⟨k, hk, hu, hl⟩)

theorem move_mono (dx dy : Int) (e : Engine) :
    e.state.score ≤ (move dx dy e).state.score ∧
    (move dx dy e).state.lines = e.state.lines ∧
    (move dx dy e).state.pieces = e.state.pieces ∧
    (move dx dy e).state.combo = e.state.combo := by
  unfold move
  dsimp only
  repeat' split
  all_goals
    simp [addScoreChecked_score, addScoreChecked_lines, addScoreChecked_pieces,
      addScoreChecked_combo]

set_option maxHeartbeats 1000000 in
theorem move_stateInv (dx dy : Int) (e : Engine) (h : StateInv e.state) :
    StateInv (move dx dy e).state := by
  obtain ⟨h20, h10, hclear, hnext, hmenu, hgo, hclr⟩ := h
  unfold move
  dsimp only
  split
  · exact ⟨h20, h10, hclear, hnext, hmenu, hgo, hclr⟩
  · rename_i piece hcur
    have hM : e.state.phase ≠ .MENU := fun hp => by simp [hmenu hp] at hcur
    have hG : e.state.phase ≠ .GAME_OVER := fun hp => by simp [hgo hp] at hcur
    have hC : e.state.phase ≠ .CLEARING := fun hp => by simp [hclr hp] at hcur
    have hnx : e.state.next.isSome = true := hnext ⟨hM, hG⟩
    repeat' split
    all_goals
      first
        | (refine ⟨h20, h10, ?_, ?_, ?_, ?_, ?_⟩ <;> intro hp <;> simp_all)
        | (apply addScoreChecked_stateInv
           refine ⟨h20, h10, ?_, ?_, ?_, ?_, ?_⟩ <;> intro hp <;> simp_all)

theorem move_unlockInv (dx dy : Int) (e : Engine) (h : UnlockInv e.state) :
    UnlockInv (move dx dy e).state := by
  obtain ⟨k, hk, hu, hl⟩ := h
  unfold move
  dsimp only
  repeat' split
  all_goals
    first
      | exact ⟨k, hk, hu, hl⟩
      | (apply addScoreChecked_unlockInv
         exact ⟨k, hk, hu, hl⟩)

theorem rotateCmd_mono (d : Int) (e : Engine) :
    (rotateCmd d e).state.score = e.state.score ∧
    (rotateCmd d e).state.lines = e.state.lines ∧
    (rotateCmd d e).state.pieces = e.state.pieces ∧
    (rotateCmd d e).state.combo = e.state.combo ∧
    (rotateCmd d e).state.unlockedPieces = e.state.unlockedPieces ∧
    (rotateCmd d e).state.level = e.state.level := by
  unfold rotateCmd
  dsimp only
  repeat' split
  all_goals simp

theorem rotateCmd_stateInv (d : Int) (e : Engine) (h : StateInv e.state) :
    StateInv (rotateCmd d e).state := by
  obtain ⟨h20, h10, hclear, hnext, hmenu, hgo, hclr⟩ := h
  unfold rotateCmd
  dsimp only
  split
  · exact ⟨h20, h10, hclear, hnext, hmenu, hgo, hclr⟩
  · rename_i piece hcur
    have hM : e.state.phase ≠ .MENU := fun hp => by simp [hmenu hp] at hcur
    have hG : e.state.phase ≠ .GAME_OVER := fun hp => by simp [hgo hp] at hcur
    have hC : e.state.phase ≠ .CLEARING := fun hp => by simp [hclr hp] at hcur
    have hnx : e.state.next.isSome = true := hnext ⟨hM, hG⟩
    repeat' split
    all_goals
      first
        | exact ⟨h20, h10, hclear, hnext, hmenu, hgo, hclr⟩
        | (refine ⟨h20, h10, ?_, ?_, ?_, ?_, ?_⟩ <;> intro hp <;> simp_all)

theorem hardDrop_mono (e : Engine) :
    e.state.score ≤ (hardDrop e).state.score ∧
    e.state.lines ≤ (hardDrop e).state.lines ∧
    e.state.pieces ≤ (hardDrop e).state.pieces ∧
    (hardDrop e).state.combo = e.state.combo := by
  unfold hardDrop
  dsimp only
  split
  · simp
  · split
    · refine ⟨?_, ?_, ?_, ?_⟩
      · exact le_trans (by simp [addScoreChecked_score]) (lockPiece_mono _).1
      · exact le_trans (by simp [addScoreChecked_lines]) (lockPiece_mono _).2.1
      · exact le_trans (by simp [addScoreChecked_pieces]) (lockPiece_mono _).2.2.1
      · rw [(lockPiece_mono _).2.2.2.2.2]
        simp [addScoreChecked_combo]
    · exact ⟨(lockPiece_mono e).1, (lockPiece_mono e).2.1, (lockPiece_mono e).2.2.1,
        (lockPiece_mono e).2.2.2.2.2⟩

theorem hardDrop_stateInv (e : Engine) (h : StateInv e.state) :
    StateInv (hardDrop e).state := by
  have h' := h
  obtain ⟨h20, h10, hclear, hnext, hmenu, hgo, hclr⟩ := h
  unfold hardDrop
  dsimp only
  split
  · exact ⟨h20, h10, hclear, hnext, hmenu, hgo, hclr⟩
  · rename_i piece hcur
    have hM : e.state.phase ≠ .MENU := fun hp => by simp [hmenu hp] at hcur
    have hG : e.state.phase ≠ .GAME_OVER := fun hp => by simp [hgo hp] at hcur
    have hC : e.state.phase ≠ .CLEARING := fun hp => by simp [hclr hp] at hcur
    have hnx : e.state.next.isSome = true := hnext ⟨hM, hG⟩
    apply lockPiece_stateInv
    split
    · apply addScoreChecked_stateInv
      refine ⟨h20, h10, ?_, ?_, ?_, ?_, ?_⟩ <;> intro hp <;> simp_all
    · exact h'

theorem hardDrop_unlockInv (e : Engine) (h : UnlockInv e.state) :
    UnlockInv (hardDrop e).state := by
  obtain ⟨k, hk, hu, hl⟩ := h
  unfold hardDrop
  dsimp only
  split
  · exact ⟨k, hk, hu, hl⟩
  · apply lockPiece_unlockInv
    split
    · apply addScoreChecked_unlockInv
      exact ⟨k, hk, hu, hl⟩
    · exact ⟨k, hk, hu, hl⟩

theorem tryHold_frozen (e : Engine) :
    (tryHold e).state.score = e.state.score ∧
    (tryHold e).state.lines = e.state.lines ∧
    (tryHold e).state.pieces = e.state.pieces ∧
    (tryHold e).state.combo = e.state.combo ∧
    (tryHold e).state.unlockedPieces = e.state.unlockedPieces ∧
    (tryHold e).state.level = e.state.level := by
  unfold tryHold
  repeat' split
  all_goals simp

theorem tryHold_stateInv (e : Engine) (h : StateInv e.state) :
    StateInv (tryHold e).state := by
  obtain ⟨h20, h10, hclear, hnext, hmenu, hgo, hclr⟩ := h
  unfold tryHold
  split
  · rename_i held hcur hch
    have hM : e.state.phase ≠ .MENU := fun hp => by simp [hmenu hp] at hcur
    have hG : e.state.phase ≠ .GAME_OVER := fun hp => by simp [hgo hp] at hcur
    have hnx : e.state.next.isSome = true := hnext ⟨hM, hG⟩
    split
    · exact ⟨h20, h10, hclear, hnext, hmenu, hgo, hclr⟩
    · refine ⟨h20, h10, ?_, ?_, ?_, ?_, ?_⟩ <;> intro hp <;> simp_all
  · exact ⟨h20, h10, hclear, hnext, hmenu, hgo, hclr⟩

theorem togglePause_frozen (e : Engine) :
    (togglePause e).state.score = e.state.score ∧
    (togglePause e).state.lines = e.state.lines ∧
    (togglePause e).state.pieces = e.state.pieces ∧
    (togglePause e).state.combo = e.state.combo ∧
    (togglePause e).state.unlockedPieces = e.state.unlockedPieces ∧
    (togglePause e).state.level = e.state.level := by
  unfold togglePause
  repeat' split
  all_goals simp

theorem togglePause_stateInv (e : Engine) (h : StateInv e.state) :
    StateInv (togglePause e).state := by
  obtain ⟨h20, h10, hclear, hnext, hmenu, hgo, hclr⟩ := h
  unfold togglePause
  split
  · rename_i hcond
    have hnx : e.state.next.isSome = true :=
      hnext (by rcases hcond with h' | h' <;> simp [h'])
    refine ⟨h20, h10, ?_, ?_, ?_, ?_, ?_⟩ <;> intro hp <;> simp_all
  · split
    · rename_i hcond hP
      have hnx : e.state.next.isSome = true := hnext (by simp [hP])
      have hcurP : e.state.current = e.state.current := rfl
      refine ⟨h20, h10, ?_, ?_, ?_, ?_, ?_⟩ <;> intro hp <;> simp_all
    · exact ⟨h20, h10, hclear, hnext, hmenu, hgo, hclr⟩

theorem tryHold_unlockInv (e : Engine) (h : UnlockInv e.state) :
    UnlockInv (tryHold e).state :=
  UnlockInv_congr (tryHold_frozen e).2.2.2.2.1 (tryHold_frozen e).2.2.2.2.2 h

theorem togglePause_unlockInv (e : Engine) (h : UnlockInv e.state) :
    UnlockInv (togglePause e).state :=
  UnlockInv_congr (togglePause_frozen e).2.2.2.2.1 (togglePause_frozen e).2.2.2.2.2 h

theorem rotateCmd_unlockInv (d : Int) (e : Engine) (h : UnlockInv e.state) :
    UnlockInv (rotateCmd d e).state :=
  UnlockInv_congr (rotateCmd_mono d e).2.2.2.2.1 (rotateCmd_mono d e).2.2.2.2.2 h

theorem processFalling_frozen (dt now : ℚ) (e : Engine) :
    (processFalling dt now e).state.score = e.state.score ∧
    (processFalling dt now e).state.lines = e.state.lines ∧
    (processFalling dt now e).state.pieces = e.state.pieces ∧
    (processFalling dt now e).state.combo = e.state.combo ∧
    (processFalling dt now e).state.unlockedPieces = e.state.unlockedPieces ∧
    (processFalling dt now e).state.level = e.state.level := by
  unfold processFalling
  dsimp only
  repeat' split
  all_goals simp

theorem processFalling_stateInv (dt now : ℚ) (e : Engine) (h : StateInv e.state)
    (hP : e.state.phase = .FALLING) : StateInv (processFalling dt now e).state := by
  obtain ⟨h20, h10, hclear, hnext, hmenu, hgo, hclr⟩ := h
  have hnx : e.state.next.isSome = true := hnext (by simp [hP])
  unfold processFalling
  dsimp only
  repeat' split
  all_goals refine ⟨h20, h10, ?_, ?_, ?_, ?_, ?_⟩ <;> intro hp <;> simp_all

theorem processLocking_mono (dt : ℚ) (e : Engine) :
    e.state.score ≤ (processLocking dt e).state.score ∧
    e.state.lines ≤ (processLocking dt e).state.lines ∧
    e.state.pieces ≤ (processLocking dt e).state.pieces ∧
    (processLocking dt e).state.combo = e.state.combo ∧
    (processLocking dt e).state.unlockedPieces = e.state.unlockedPieces ∧
    (processLocking dt e).state.level = e.state.level := by
  unfold processLocking
  dsimp only
  repeat' split
  all_goals
    first
      | exact ⟨(lockPiece_mono e).1, (lockPiece_mono e).2.1, (lockPiece_mono e).2.2.1,
          (lockPiece_mono e).2.2.2.2.2, (lockPiece_mono e).2.2.2.1, (lockPiece_mono e).2.2.2.2.1⟩
      | simp

theorem processLocking_stateInv (dt : ℚ) (e : Engine) (h : StateInv e.state)
    (hP : e.state.phase = .LOCKING) : StateInv (processLocking dt e).state := by
  have h' := h
  obtain ⟨h20, h10, hclear, hnext, hmenu, hgo, hclr⟩ := h
  have hnx : e.state.next.isSome = true := hnext (by simp [hP])
  unfold processLocking
  dsimp only
  repeat' split
  all_goals
    first
      | exact lockPiece_stateInv e h'
      | (refine ⟨h20, h10, ?_, ?_, ?_, ?_, ?_⟩ <;> intro hp <;> simp_all)

theorem processLocking_unlockInv (dt : ℚ) (e : Engine) (h : UnlockInv e.state) :
    UnlockInv (processLocking dt e).state :=
  UnlockInv_congr (processLocking_mono dt e).2.2.2.2.1 (processLocking_mono dt e).2.2.2.2.2 h

theorem processClearing_mono (dt : ℚ) (e : Engine) :
    e.state.score ≤ (processClearing dt e).state.score ∧
    e.state.lines ≤ (processClearing dt e).state.lines ∧
    e.state.pieces ≤ (processClearing dt e).state.pieces := by
  unfold processClearing
  dsimp only
  split
  · have hf := finishClearing_fields e
    refine ⟨?_, ?_, ?_⟩
    · rw [hf.1]; omega
    · rw [hf.2.1]; omega
    · rw [hf.2.2.1]
  · simp

theorem processClearing_stateInv (dt : ℚ) (e : Engine) (h : StateInv e.state)
    (hP : e.state.phase = .CLEARING) : StateInv (processClearing dt e).state := by
  have h' := h
  obtain ⟨h20, h10, hclear, hnext, hmenu, hgo, hclr⟩ := h
  unfold processClearing
  dsimp only
  split
  · exact finishClearing_stateInv e h' hP
  · refine ⟨h20, h10, ?_, ?_, ?_, ?_, ?_⟩ <;> intro hp <;> simp_all

theorem processClearing_unlockInv (dt : ℚ) (e : Engine) (h : UnlockInv e.state) :
    UnlockInv (processClearing dt e).state := by
  unfold processClearing
  dsimp only
  split
  · exact finishClearing_unlockInv e h
  · exact UnlockInv_congr rfl rfl h

theorem processFalling_unlockInv (dt now : ℚ) (e : Engine) (h : UnlockInv e.state) :
    UnlockInv (processFalling dt now e).state :=
  UnlockInv_congr (processFalling_frozen dt now e).2.2.2.2.1
    (processFalling_frozen dt now e).2.2.2.2.2 h

theorem StateInv_frameCount (s : GameState) (n : Nat) (h : StateInv s) :
    StateInv { s with frameCount := n } := by
  unfold StateInv at h ⊢
  simpa using h

theorem tick_stateInv (dt now : ℚ) (e : Engine) (h : StateInv e.state) :
    StateInv (tick dt now e).state := by
  have h' := h
  have hv : validateState e.state = true := by simp [validateState, h.1]
  unfold tick
  dsimp only
  split
  · rename_i hbad
    rw [hv] at hbad
    cases hbad
  · split
    all_goals
      split
      · exact h'
      · split
        · exact StateInv_frameCount _ _ (processFalling_stateInv dt now _ h' (by assumption))
        · exact StateInv_frameCount _ _ (processLocking_stateInv dt _ h' (by assumption))
        · exact StateInv_frameCount _ _ (processClearing_stateInv dt _ h' (by assumption))
        · exact StateInv_frameCount _ _ h'

theorem tick_mono (dt now : ℚ) (e : Engine) (h : StateInv e.state) :
    e.state.score ≤ (tick dt now e).state.score ∧
    e.state.lines ≤ (tick dt now e).state.lines ∧
    e.state.pieces ≤ (tick dt now e).state.pieces := by
  have hv : validateState e.state = true := by simp [validateState, h.1]
  unfold tick
  dsimp only
  split
  · rename_i hbad
    rw [hv] at hbad
    cases hbad
  · split
    · split
      · exact ⟨le_refl _, le_refl _, le_refl _⟩
      · split <;> dsimp only
        · exact ⟨((processFalling_frozen dt now { e with lastValid := some e.state }).1).symm.le,
            ((processFalling_frozen dt now { e with lastValid := some e.state }).2.1).symm.le,
            ((processFalling_frozen dt now { e with lastValid := some e.state }).2.2.1).symm.le⟩
        · exact ⟨(processLocking_mono dt { e with lastValid := some e.state }).1,
            (processLocking_mono dt { e with lastValid := some e.state }).2.1,
            (processLocking_mono dt { e with lastValid := some e.state }).2.2.1⟩
        · exact ⟨(processClearing_mono dt { e with lastValid := some e.state }).1,
            (processClearing_mono dt { e with lastValid := some e.state }).2.1,
            (processClearing_mono dt { e with lastValid := some e.state }).2.2⟩
        · exact ⟨le_refl _, le_refl _, le_refl _⟩
    · split
      · exact ⟨le_refl _, le_refl _, le_refl _⟩
      · split <;> dsimp only
        · exact ⟨((processFalling_frozen dt now e).1).symm.le,
            ((processFalling_frozen dt now e).2.1).symm.le,
            ((processFalling_frozen dt now e).2.2.1).symm.le⟩
        · exact ⟨(processLocking_mono dt e).1, (processLocking_mono dt e).2.1,
            (processLocking_mono dt e).2.2.1⟩
        · exact ⟨(processClearing_mono dt e).1, (processClearing_mono dt e).2.1,
            (processClearing_mono dt e).2.2⟩
        · exact ⟨le_refl _, le_refl _, le_refl _⟩

theorem tick_unlockInv (dt now : ℚ) (e : Engine) (h : StateInv e.state)
    (hU : UnlockInv e.state) : UnlockInv (tick dt now e).state := by
  have hv : validateState e.state = true := by simp [validateState, h.1]
  unfold tick
  dsimp only
  split
  · rename_i hbad
    rw [hv] at hbad
    cases hbad
  · split
    all_goals
      split
      · exact hU
      · split
        · exact UnlockInv_congr rfl rfl (processFalling_unlockInv dt now _ hU)
        · exact UnlockInv_congr rfl rfl (processLocking_unlockInv dt _ hU)
        · exact UnlockInv_congr rfl rfl (processClearing_unlockInv dt _ hU)
        · exact UnlockInv_congr rfl rfl hU

theorem startGame_stateInv (now : ℚ) (nowSeed : Nat) (e : Engine) (h : StateInv e.state) :
    StateInv (startGame now nowSeed e).state := by
  unfold startGame
  dsimp only
  split
  · exact h
  · refine ⟨?_, ?_, ?_, ?_, ?_, ?_, ?_⟩ <;> simp [createInitialState]

theorem startGame_unlockInv (now : ℚ) (nowSeed : Nat) (e : Engine) (h : UnlockInv e.state) :
    UnlockInv (startGame now nowSeed e).state := by
  unfold startGame
  dsimp only
  split
  · exact h
  · exact ⟨0, by omega, by simp [createInitialState], by simp [createInitialState]⟩

theorem handleInput_stateInv (a : Act) (now : ℚ) (nowSeed : Nat) (e : Engine)
    (h : StateInv e.state) : StateInv (handleInput a now nowSeed e).state := by
  unfold handleInput
  dsimp only
  cases a <;> dsimp only
  case upPressed =>
    split
    · split
      · exact move_stateInv 0 (-1) _ h
      · exact rotateCmd_stateInv 1 _ h
    · exact rotateCmd_stateInv 1 _ h
  case moveA dx dy => exact move_stateInv dx dy _ h
  case rotateA d => exact rotateCmd_stateInv d _ h
  case hardDropA => exact hardDrop_stateInv _ h
  case holdA => exact tryHold_stateInv _ h
  case startA => exact startGame_stateInv now nowSeed _ h
  case pauseA => exact togglePause_stateInv _ h

theorem handleInput_unlockInv (a : Act) (now : ℚ) (nowSeed : Nat) (e : Engine)
    (h : UnlockInv e.state) : UnlockInv (handleInput a now nowSeed e).state := by
  unfold handleInput
  dsimp only
  cases a <;> dsimp only
  case upPressed =>
    split
    · split
      · exact move_unlockInv 0 (-1) _ h
      · exact rotateCmd_unlockInv 1 _ h
    · exact rotateCmd_unlockInv 1 _ h
  case moveA dx dy => exact move_unlockInv dx dy _ h
  case rotateA d => exact rotateCmd_unlockInv d _ h
  case hardDropA => exact hardDrop_unlockInv _ h
  case holdA => exact tryHold_unlockInv _ h
  case startA => exact startGame_unlockInv now nowSeed _ h
  case pauseA => exact togglePause_unlockInv _ h

theorem handleInput_mono (a : Act) (now : ℚ) (nowSeed : Nat) (e : Engine)
    (ha : a ≠ Act.startA) :
    e.state.score ≤ (handleInput a now nowSeed e).state.score ∧
    e.state.lines ≤ (handleInput a now nowSeed e).state.lines ∧
    e.state.pieces ≤ (handleInput a now nowSeed e).state.pieces := by
  unfold handleInput
  dsimp only
  cases a <;> dsimp only
  case upPressed =>
    have hm := move_mono 0 (-1)
      { e with actionLog := e.actionLog ++ [(e.state.frameCount, Act.upPressed)] }
    have hr := rotateCmd_mono 1
      { e with actionLog := e.actionLog ++ [(e.state.frameCount, Act.upPressed)] }
    split
    · split
      · exact ⟨hm.1, hm.2.1.symm.le, hm.2.2.1.symm.le⟩
      · exact ⟨hr.1.symm.le, hr.2.1.symm.le, hr.2.2.1.symm.le⟩
    · exact ⟨hr.1.symm.le, hr.2.1.symm.le, hr.2.2.1.symm.le⟩
  case moveA dx dy =>
    have hm := move_mono dx dy
      { e with actionLog := e.actionLog ++ [(e.state.frameCount, Act.moveA dx dy)] }
    exact ⟨hm.1, hm.2.1.symm.le, hm.2.2.1.symm.le⟩
  case rotateA d =>
    have hr := rotateCmd_mono d
      { e with actionLog := e.actionLog ++ [(e.state.frameCount, Act.rotateA d)] }
    exact ⟨hr.1.symm.le, hr.2.1.symm.le, hr.2.2.1.symm.le⟩
  case hardDropA =>
    have hd := hardDrop_mono
      { e with actionLog := e.actionLog ++ [(e.state.frameCount, Act.hardDropA)] }
    exact ⟨hd.1, hd.2.1, hd.2.2.1⟩
  case holdA =>
    have hh := tryHold_frozen
      { e with actionLog := e.actionLog ++ [(e.state.frameCount, Act.holdA)] }
    exact ⟨hh.1.symm.le, hh.2.1.symm.le, hh.2.2.1.symm.le⟩
  case startA => exact absurd rfl ha
  case pauseA =>
    have hp := togglePause_frozen
      { e with actionLog := e.actionLog ++ [(e.state.frameCount, Act.pauseA)] }
    exact ⟨hp.1.symm.le, hp.2.1.symm.le, hp.2.2.1.symm.le⟩

theorem applyOp_stateInv (op : Op) (e : Engine) (h : StateInv e.state) :
    StateInv (applyOp op e).state := by
  cases op
  case tickOp dt now => exact tick_stateInv dt now e h
  case inputOp a now nowSeed => exact handleInput_stateInv a now nowSeed e h

theorem applyOp_unlockInv (op : Op) (e : Engine) (hS : StateInv e.state)
    (hU : UnlockInv e.state) : UnlockInv (applyOp op e).state := by
  cases op
  case tickOp dt now => exact tick_unlockInv dt now e hS hU
  case inputOp a now nowSeed => exact handleInput_unlockInv a now nowSeed e hU

theorem applyOp_mono (op : Op) (e : Engine) (h : StateInv e.state)
    (hop : isSessionOp op = true) :
    e.state.score ≤ (applyOp op e).state.score ∧
    e.state.lines ≤ (applyOp op e).state.lines ∧
    e.state.pieces ≤ (applyOp op e).state.pieces := by
  cases op
  case tickOp dt now => exact tick_mono dt now e h
  case inputOp a now nowSeed =>
    refine handleInput_mono a now nowSeed e ?_
    intro haEq
    subst haEq
    simp [isSessionOp] at hop

theorem applyOps_stateInv_mono (ops : List Op) (e : Engine) (h : StateInv e.state)
    (hsess : ∀ op ∈ ops, isSessionOp op = true) :
    StateInv (applyOps ops e).state ∧
    e.state.score ≤ (applyOps ops e).state.score ∧
    e.state.lines ≤ (applyOps ops e).state.lines ∧
    e.state.pieces ≤ (applyOps ops e).state.pieces := by
  induction ops generalizing e with
  | nil => exact ⟨h, le_refl _, le_refl _, le_refl _⟩
  | cons op rest ih =>
    have hop := hsess op (by simp)
    have hstep := applyOp_mono op e h hop
    have hS := applyOp_stateInv op e h
    have hrest := ih (applyOp op e) hS (fun o ho => hsess o (by simp [ho]))
    exact ⟨hrest.1, le_trans hstep.1 hrest.2.1, le_trans hstep.2.1 hrest.2.2.1,
      le_trans hstep.2.2 hrest.2.2.2⟩

theorem initEngine_stateInv (ctorNow highScore : Nat) :
    StateInv (initEngine ctorNow highScore).state := by
  refine ⟨?_, ?_, ?_, ?_, ?_, ?_, ?_⟩ <;>
    simp [initEngine, createInitialState, List.mem_replicate]

theorem initEngine_unlockInv (ctorNow highScore : Nat) :
    UnlockInv (initEngine ctorNow highScore).state :=
  ⟨0, by omega, by simp [initEngine, createInitialState], by simp [initEngine, createInitialState]⟩

theorem reachable_inv (e : Engine) (h : Reachable e) :
    StateInv e.state ∧ UnlockInv e.state := by
  obtain ⟨ctorNow, highScore, ops, rfl⟩ := h
  have main : ∀ (ops : List Op) (e0 : Engine), StateInv e0.state → UnlockInv e0.state →
      StateInv (applyOps ops e0).state ∧ UnlockInv (applyOps ops e0).state := by
    intro ops
    induction ops with
    | nil => intro e0 hS hU; exact ⟨hS, hU⟩
    | cons op rest ih =>
      intro e0 hS hU
      exact ih _ (applyOp_stateInv op e0 hS) (applyOp_unlockInv op e0 hS hU)
  exact main ops _ (initEngine_stateInv ctorNow highScore) (initEngine_unlockInv ctorNow highScore)

/-- C4: within a single game session — any sequence of ticks and commands
that contains no start command — the score, lines-cleared and
pieces-placed counters never decrease, starting from any engine state
satisfying the structural invariant (which every reachable state does, and
which each step preserves, so the bound applies between every pair of
consecutive states of the session). -/
theorem session_counters_monotone (e : Engine) (ops : List Op)
    (hInv : StateInv e.state) (hsess : ∀ op ∈ ops, isSessionOp op = true) :
    e.state.score ≤ (applyOps ops e).state.score ∧
    e.state.lines ≤ (applyOps ops e).state.lines ∧
    e.state.pieces ≤ (applyOps ops e).state.pieces ∧
    StateInv (applyOps ops e).state := by
  have h := applyOps_stateInv_mono ops e hInv hsess
  exact ⟨h.2.1, h.2.2.1, h.2.2.2, h.1⟩

/-- Witness for the session monotonicity claim: one tick from the freshly
constructed engine. -/
theorem session_counters_monotone_witness :
    (initEngine 0 0).state.score ≤ (applyOps [Op.tickOp 17 0] (initEngine 0 0)).state.score ∧
    (initEngine 0 0).state.lines ≤ (applyOps [Op.tickOp 17 0] (initEngine 0 0)).state.lines ∧
    (initEngine 0 0).state.pieces ≤ (applyOps [Op.tickOp 17 0] (initEngine 0 0)).state.pieces ∧
    StateInv (applyOps [Op.tickOp 17 0] (initEngine 0 0)).state :=
  session_counters_monotone (initEngine 0 0) [Op.tickOp 17 0]
    (initEngine_stateInv 0 0) (by intro op hop; simp at hop; simp [hop, isSessionOp])

/-- C8: every reachable CLEARING state carries a non-empty clearing-line
list (CLEARING is only entered when locking found at least one full line),
so the clearing-finalization step strictly increments the combo counter and
never resets it to 0 through this path. -/
theorem clearing_combo_strictly_increments (e : Engine) (h : Reachable e)
    (hC : e.state.phase = Phase.CLEARING) :
    e.state.clearingLines ≠ [] ∧
    (finishClearing e).state.combo = e.state.combo + 1 := by
  have hS := (reachable_inv e h).1
  have hnil := hS.2.2.1 hC
  refine ⟨hnil, ?_⟩
  rw [(finishClearing_fields e).2.2.2]
  have hpos : 0 < e.state.clearingLines.length := List.length_pos.2 hnil
  simp [hpos]

/-- C10: in every reachable state the unlocked set is the 8 starting kinds
followed by a prefix of PLUS, U, DOT — never more than the 11 known kinds
— and the level is 1 plus the number of milestone unlocks, hence at most
4; once all three are unlocked, a further milestone call changes nothing. -/
theorem unlock_progression (e : Engine) (h : Reachable e) :
    (∃ k, k ≤ 3 ∧ e.state.unlockedPieces = startingPieces ++ unlockOrder.take k ∧
      e.state.level = 1 + k) ∧
    e.state.unlockedPieces.length ≤ 11 ∧
    e.state.level ≤ 4 ∧
    (∀ s : GameState, s.unlockedPieces.length = 11 → unlockNewPiece s = s) := by
  obtain ⟨k, hk, hu, hl⟩ := (reachable_inv e h).2
  refine ⟨⟨k, hk, hu, hl⟩, ?_, by omega, ?_⟩
  · rw [hu]
    simp [startingPieces, unlockOrder, List.length_take]
    try omega
  · intro s hs
    unfold unlockNewPiece
    dsimp only
    rw [hs]
    simp

/-- Witness for the unlock-progression claim: the freshly constructed
engine is reachable with the empty operation sequence. -/
theorem unlock_progression_witness :
    (∃ k, k ≤ 3 ∧ (initEngine 0 0).state.unlockedPieces = startingPieces ++ unlockOrder.take k ∧
      (initEngine 0 0).state.level = 1 + k) ∧
    (initEngine 0 0).state.unlockedPieces.length ≤ 11 ∧
    (initEngine 0 0).state.level ≤ 4 ∧
    (∀ s : GameState, s.unlockedPieces.length = 11 → unlockNewPiece s = s) :=
  unlock_progression (initEngine 0 0) ⟨0, 0, [], rfl⟩

/-- A concrete session that fills bottom row 19: two flat three-wide
pieces (the first two draws of constructor seed 27 are both "T") placed at
columns 0-2 and 3-5, then an "I" (the first draw of the start reseed 8)
moved to columns 6-9 and dropped, completing the row and entering
CLEARING. -/
def clearOps : List Op :=
  [ Op.inputOp .startA 0 8,
    Op.inputOp (.moveA (-1) 0) 0 0, Op.inputOp (.moveA (-1) 0) 0 0,
    Op.inputOp (.moveA (-1) 0) 0 0,
    Op.inputOp .hardDropA 0 0,
    Op.inputOp .hardDropA 0 0,
    Op.inputOp (.moveA 1 0) 0 0, Op.inputOp (.moveA 1 0) 0 0,
    Op.inputOp (.moveA 1 0) 0 0,
    Op.inputOp .hardDropA 0 0 ]

/-- The reachable engine at the end of `clearOps`: in phase CLEARING. -/
def engineClear : Engine := applyOps clearOps (initEngine 27 0)

set_option maxRecDepth 10000 in
/-- Witness for the clearing-combo claim: the concrete CLEARING state
reached by `clearOps`. -/
theorem clearing_combo_strictly_increments_witness :
    engineClear.state.clearingLines ≠ [] ∧
    (finishClearing engineClear).state.combo = engineClear.state.combo + 1 :=
  clearing_combo_strictly_increments engineClear ⟨27, 0, clearOps, rfl⟩ (by decide)

theorem tryHold_rejected (e : Engine)
    (h : e.state.current = none ∨ e.state.canHold = false) : tryHold e = e := by
  unfold tryHold
  split
  · rename_i held hcur hch
    rcases h with h' | h'
    · rw [h'] at hcur
      cases hcur
    · rw [h'] at hch
      cases hch
  · rfl

theorem tryHold_disables (e : Engine) (c : Piece) (hc : e.state.current = some c)
    (hch : e.state.canHold = true) (hfill : (e.state.hold.orElse fun _ => e.state.next).isSome = true) :
    (tryHold e).state.canHold = false := by
  unfold tryHold
  split
  · split
    · rename_i hnone
      rw [hnone] at hfill
      cases hfill
    · simp
  · rename_i hfall
    exact absurd hch (by simpa [hc] using hfall c hc)

/-- C7: a hold command is rejected — the engine is returned unchanged —
whenever there is no current piece or holding was already used since the
last lock (first conjunct); a successful hold disables holding, so a second
hold in a row without an intervening lock is rejected (second conjunct);
and a successful (non-death) lock re-enables holding (third conjunct). -/
theorem hold_restriction (e : Engine) :
    (e.state.current = none ∨ e.state.canHold = false → tryHold e = e) ∧
    (∀ c : Piece, e.state.current = some c → e.state.canHold = true →
      (e.state.hold.orElse fun _ => e.state.next).isSome = true →
      (tryHold e).state.canHold = false ∧ tryHold (tryHold e) = tryHold e) ∧
    (∀ c : Piece, e.state.current = some c → 0 ≤ c.gridY →
      (lockPiece e).state.canHold = true) := by
  refine ⟨tryHold_rejected e, ?_, ?_⟩
  · intro c hc hch hfill
    have hdis := tryHold_disables e c hc hch hfill
    exact ⟨hdis, tryHold_rejected (tryHold e) (Or.inr hdis)⟩
  · intro c hc hge
    unfold lockPiece
    dsimp only
    split
    · rename_i hnone
      rw [hc] at hnone
      cases hnone
    · rename_i cur hcur
      have hcc : cur = c := by
        rw [hc] at hcur
        exact (Option.some_inj.1 hcur).symm
      split
      · rename_i hneg
        rw [hcc] at hneg
        omega
      · split
        · simp
        · rw [spawnNextPiece_canHold]

/-- An engine holding a "T" with an empty hold slot and an "I" queued
next, ready for a first hold. -/
def holdEngine : Engine :=
  { initEngine 0 0 with state := { createInitialState 0 with
      phase := .FALLING
      current := some { createPiece .T with gridY := 5 }
      next := some (createPiece .I) } }

/-- Witness for the hold-restriction claim at `holdEngine`: the second of
two consecutive holds is rejected, and locking re-enables holding. -/
theorem hold_restriction_witness :
    ((tryHold holdEngine).state.canHold = false ∧
      tryHold (tryHold holdEngine) = tryHold holdEngine) ∧
    (lockPiece holdEngine).state.canHold = true :=
  ⟨(hold_restriction holdEngine).2.1 { createPiece .T with gridY := 5 } rfl rfl (by decide),
    (hold_restriction holdEngine).2.2 { createPiece .T with gridY := 5 } rfl (by decide)⟩

/-- C9: when holding is permitted and the hold slot is empty, a hold
swaps in the *next* piece as the new current piece but does not advance the
next-piece queue — the source reassigns `this.state.hold` before testing
it, so the `getNextPiece` arm is unreachable — leaving current and next
with the same type. -/
theorem hold_empty_slot_keeps_next (e : Engine) (c n : Piece)
    (hc : e.state.current = some c) (hch : e.state.canHold = true)
    (hh : e.state.hold = none) (hn : e.state.next = some n) :
    (tryHold e).state.next = e.state.next ∧
    ∃ cur : Piece, (tryHold e).state.current = some cur ∧ cur.type = n.type := by
  unfold tryHold
  split
  · rename_i held hcur hch'
    split
    · rename_i hnone
      rw [hh, hn] at hnone
      simp [Option.orElse] at hnone
    · rename_i newCurrent hsome
      rw [hh, hn] at hsome
      simp [Option.orElse] at hsome
      constructor
      · simp
      · refine ⟨{ createPiece newCurrent.type with
            generation := e.state.generation + 1, upMovesUsed := 0 }, by simp, ?_⟩
        simp [createPiece, hsome]
  · rename_i hfall
    exact absurd hch (by simpa [hc] using hfall c hc)

/-- Witness for the hold-keeps-next claim at `holdEngine`. -/
theorem hold_empty_slot_keeps_next_witness :
    (tryHold holdEngine).state.next = holdEngine.state.next ∧
    ∃ cur : Piece, (tryHold holdEngine).state.current = some cur ∧
      cur.type = (createPiece .I).type :=
  hold_empty_slot_keeps_next holdEngine { createPiece .T with gridY := 5 }
    (createPiece .I) rfl rfl rfl rfl

/-- A 20-row board whose bottom row is full. -/
def c3Board : Board :=
  List.replicate 19 (List.replicate 10 none) ++ [List.replicate 10 (some "#00FFFF")]

/-- A CLEARING state at score 2999 with combo 60 and one full line: the
finalization awards 100 line points plus 3000 combo points, crossing two
3000-point thresholds in a single step. -/
def c3Engine : Engine :=
  { initEngine 0 0 with state := { createInitialState 0 with
      phase := .CLEARING
      board := c3Board
      clearingLines := [19]
      combo := 60
      score := 2999
      next := some (createPiece .I) } }

/-- C3 counterexample: this single clearing-finalization step crosses two
3000-point thresholds (score 2999 to 6099) but unlocks exactly one piece
and raises the level by exactly one — not once per threshold crossed as
the claim states. -/
theorem unlock_milestone_counterexample :
    (finishClearing c3Engine).state.score / 3000 - c3Engine.state.score / 3000 = 2 ∧
    (finishClearing c3Engine).state.unlockedPieces.length =
      c3Engine.state.unlockedPieces.length + 1 ∧
    (finishClearing c3Engine).state.level = 2 ∧ c3Engine.state.level = 1 := by
  decide

/-- The points a clearing finalization awards: line value times level plus
the combo bonus. -/
def finishGain (e : Engine) : Nat :=
  [0, 100, 300, 500, 800].getD (min e.state.clearingLines.length 4) 0 * e.state.level +
  (if e.state.combo > 0 then 50 * e.state.combo * e.state.level else 0)

theorem unlockNewPiece_proj_eq (X Y : GameState) (hu : X.unlockedPieces = Y.unlockedPieces)
    (hl : X.level = Y.level) :
    (unlockNewPiece X).unlockedPieces = (unlockNewPiece Y).unlockedPieces ∧
    (unlockNewPiece X).level = (unlockNewPiece Y).level := by
  unfold unlockNewPiece
  dsimp only
  rw [hu, hl]
  split
  · simp
  · exact ⟨hu, hl⟩

theorem finishClearing_unlock_eq (e : Engine) :
    (finishClearing e).state.unlockedPieces =
      (addScoreChecked e.state (finishGain e)).unlockedPieces ∧
    (finishClearing e).state.level = (addScoreChecked e.state (finishGain e)).level := by
  unfold finishClearing addScoreChecked finishGain
  dsimp only
  rw [spawnNextPiece_unlockedPieces, spawnNextPiece_level]
  dsimp only
  generalize hA : [0, 100, 300, 500, 800].getD (min e.state.clearingLines.length 4) 0
      * e.state.level = A
  generalize hB : (if e.state.combo > 0 then 50 * e.state.combo * e.state.level else 0) = B
  have h1 : e.state.score + A + B - A - B = e.state.score := by omega
  have h2 : e.state.score + A + B = e.state.score + (A + B) := by omega
  rw [h1, h2]
  split
  · exact unlockNewPiece_proj_eq _ _ rfl rfl
  · exact ⟨rfl, rfl⟩

theorem unlockNewPiece_length_le (s : GameState) :
    (unlockNewPiece s).unlockedPieces.length ≤ s.unlockedPieces.length + 1 := by
  unfold unlockNewPiece
  dsimp only
  split <;> simp

/-- C3 (amended): each score-awarding step — soft drop and hard drop via
the shared add-then-check routine, and the clearing finalization, whose
unlock effect coincides with it (final conjunct) — invokes the unlock
routine at most once, exactly when `floor(score/3000)` increased during
the step, no matter how many thresholds were crossed; an unlock never
happens before the score reaches 3000; and, below the cap of three
milestone kinds, an unlock appends exactly the next kind of the fixed
order PLUS, U, DOT and increments the level by one, while after DOT
nothing changes. -/
theorem unlock_milestone_amended (s : GameState) (gain k : Nat) (hk : k ≤ 3)
    (hu : s.unlockedPieces = startingPieces ++ unlockOrder.take k) :
    (addScoreChecked s gain).score = s.score + gain ∧
    (addScoreChecked s gain).unlockedPieces.length ≤ s.unlockedPieces.length + 1 ∧
    ((s.score + gain) / 3000 = s.score / 3000 →
      (addScoreChecked s gain).unlockedPieces = s.unlockedPieces ∧
      (addScoreChecked s gain).level = s.level) ∧
    ((addScoreChecked s gain).unlockedPieces ≠ s.unlockedPieces → 3000 ≤ s.score + gain) ∧
    (s.score / 3000 < (s.score + gain) / 3000 → k < 3 →
      (addScoreChecked s gain).unlockedPieces = startingPieces ++ unlockOrder.take (k + 1) ∧
      (addScoreChecked s gain).level = s.level + 1) ∧
    (s.score / 3000 < (s.score + gain) / 3000 → k = 3 →
      (addScoreChecked s gain).unlockedPieces = s.unlockedPieces ∧
      (addScoreChecked s gain).level = s.level) ∧
    (∀ e : Engine,
      (finishClearing e).state.unlockedPieces =
        (addScoreChecked e.state (finishGain e)).unlockedPieces ∧
      (finishClearing e).state.level = (addScoreChecked e.state (finishGain e)).level) := by
  have hcount : s.unlockedPieces.length - 8 = k := by
    rw [hu]
    simp [startingPieces, unlockOrder, List.length_take]
    omega
  refine ⟨addScoreChecked_score s gain, ?_, ?_, ?_, ?_, ?_, finishClearing_unlock_eq⟩
  · unfold addScoreChecked
    dsimp only
    split
    · exact unlockNewPiece_length_le _
    · simp
  · intro heq
    unfold addScoreChecked
    dsimp only
    split
    · rename_i hgt
      omega
    · exact ⟨rfl, rfl⟩
  · intro hchanged
    unfold addScoreChecked at hchanged
    dsimp only at hchanged
    by_cases hgt : (s.score + gain) / 3000 > s.score / 3000
    · by_contra hlt
      push_neg at hlt
      have h0 : (s.score + gain) / 3000 = 0 := Nat.div_eq_of_lt (by omega)
      omega
    · rw [if_neg (by simpa using hgt)] at hchanged
      exact absurd rfl hchanged
  · intro hgt hklt
    unfold addScoreChecked unlockNewPiece
    dsimp only
    rw [if_pos (by simpa using hgt)]
    rw [show ({ s with score := s.score + gain } : GameState).unlockedPieces.length - 8 = k
      from hcount]
    rw [if_pos hklt]
    constructor
    · dsimp only
      rw [hu, List.append_assoc]
      have hstep : unlockOrder.take k ++ [unlockOrder.getD k .I] = unlockOrder.take (k + 1) := by
        have hcases : k = 0 ∨ k = 1 ∨ k = 2 := by omega
        rcases hcases with h' | h' | h' <;> subst h' <;> decide
      rw [hstep]
    · simp
  · intro hgt hk3
    unfold addScoreChecked unlockNewPiece
    dsimp only
    rw [if_pos (by simpa using hgt)]
    rw [show ({ s with score := s.score + gain } : GameState).unlockedPieces.length - 8 = k
      from hcount]
    rw [if_neg (by omega)]
    exact ⟨rfl, rfl⟩

/-- Witness for the amended milestone claim: the initial state awarded
3000 points in one step. -/
theorem unlock_milestone_amended_witness :
    (addScoreChecked (createInitialState 0) 3000).score = (createInitialState 0).score + 3000 ∧
    (addScoreChecked (createInitialState 0) 3000).unlockedPieces.length ≤
      (createInitialState 0).unlockedPieces.length + 1 ∧
    (((createInitialState 0).score + 3000) / 3000 = (createInitialState 0).score / 3000 →
      (addScoreChecked (createInitialState 0) 3000).unlockedPieces =
        (createInitialState 0).unlockedPieces ∧
      (addScoreChecked (createInitialState 0) 3000).level = (createInitialState 0).level) ∧
    ((addScoreChecked (createInitialState 0) 3000).unlockedPieces ≠
        (createInitialState 0).unlockedPieces →
      3000 ≤ (createInitialState 0).score + 3000) ∧
    ((createInitialState 0).score / 3000 < ((createInitialState 0).score + 3000) / 3000 →
      0 < 3 →
      (addScoreChecked (createInitialState 0) 3000).unlockedPieces =
        startingPieces ++ unlockOrder.take (0 + 1) ∧
      (addScoreChecked (createInitialState 0) 3000).level = (createInitialState 0).level + 1) ∧
    ((createInitialState 0).score / 3000 < ((createInitialState 0).score + 3000) / 3000 →
      0 = 3 →
      (addScoreChecked (createInitialState 0) 3000).unlockedPieces =
        (createInitialState 0).unlockedPieces ∧
      (addScoreChecked (createInitialState 0) 3000).level = (createInitialState 0).level) ∧
    (∀ e : Engine,
      (finishClearing e).state.unlockedPieces =
        (addScoreChecked e.state (finishGain e)).unlockedPieces ∧
      (finishClearing e).state.level = (addScoreChecked e.state (finishGain e)).level) :=
  unlock_milestone_amended (createInitialState 0) 3000 0 (by omega) (by decide)

/-- The first piece kind the engine would draw from a given RNG state with
the starting unlocked pool. -/
def startPiecesDraw (rng : Nat) : PieceType := (drawPiece rng startingPieces).1

set_option maxRecDepth 4000 in
/-- C1 (code defect): `startGame` — called by the static `replay` after it
seeds the RNG — draws the first two pieces and then reseeds the RNG from
the wall clock (`this.seed = Date.now(); this.rng = new SeededRandom(this.seed)`),
so every piece after the second comes from the wall-clock reading of the
run, not from the replay seed (first conjunct: the post-start RNG state is
the wall-clock value, for every seed); and different wall-clock readings
draw different pieces (second conjunct), so two replays of the same seed
and log at different times diverge in board, score and line count. -/
theorem replay_rng_reseeded_from_wall_clock :
    (∀ (ctorNow seed : Nat) (now : ℚ) (nowSeed : Nat),
        (replayStart ctorNow seed now nowSeed).rng = nowSeed ∧
        (replayStart ctorNow seed now nowSeed).seed = nowSeed) ∧
    startPiecesDraw 5 ≠ startPiecesDraw 8 := by
  constructor
  · intro ctorNow seed now nowSeed
    exact ⟨rfl, rfl⟩
  · decide

/-- Witness for the line-removal claim: removing row 19 of the full-bottom
board `c3Board`. -/
theorem removeClearedLines_spec_witness :
    removeClearedLines c3Board [19] =
      List.replicate (20 - (keptRowsSpec c3Board 0 [19]).length) (List.replicate 10 none) ++
        keptRowsSpec c3Board 0 [19] ∧
    (removeClearedLines c3Board [19]).length = 20 ∧
    ∀ r ∈ removeClearedLines c3Board [19], r.length = 10 :=
  removeClearedLines_spec c3Board [19] (by decide) (by decide)
